import Mathlib

/-!
Verification development for `packages/@aws-cdk/pipelines/lib/pipeline.ts`.

The TypeScript source is embedded shallowly:

* `CdkPipeline.validate` / `validateDeployOrder` / `validateRequestedOutputs`
  become pure functions over the flattened deploy-action list.  The generator
  that `yield`s error strings and the `Annotations.addWarning` side channel
  become two lists (errors / warnings); each emitted message is modelled as a
  structured record carrying exactly the data interpolated into the message.
* `CdkPipeline`'s constructor precondition checks become a function into
  `Except`, mirroring the source's check order (all throws happen before any
  `addStage` call, so an error means no stage was created).
* `stackOutput` becomes explicit state passing over the `_outputArtifacts`
  record; JavaScript object allocation (`new Artifact`, `new StackOutput`)
  is modelled by a monotone allocation counter so that reference identity of
  the created objects is observable.
* the `AssetPublishing` construct becomes a state machine; file-system paths
  are modelled as lists of path components of normalized absolute paths
  (`path.resolve`d, so no `..` components remain inside them), and
  `path.relative` / `startsWith('..' + path.sep)` are translated at the
  component level.
-/

set_option maxHeartbeats 1000000

namespace CdkPipelines

/-- Metadata of one scheduled stack deployment, mirroring the public fields of
`DeployCdkStackAction` that `pipeline.ts` reads (`stackArtifactId`,
`stackName`, `dependencyStackArtifactIds`, `prepareRunOrder`,
`executeRunOrder`). -/
structure DeployAction where
  stackArtifactId : String
  stackName : String
  dependencyStackArtifactIds : List String
  prepareRunOrder : Nat
  executeRunOrder : Nat
deriving DecidableEq

/-- An action sitting in a pipeline stage.  The source filters deploy actions
out of the mixed action list with an `instanceof` narrowing
(`isDeployAction`); here the action kind is an explicit tag. -/
inductive PipeAction where
  | deploy (a : DeployAction)
  | other (name : String)
deriving DecidableEq

/-- `isDeployAction` from pipeline.ts, as a tag test. -/
def isDeployAction : PipeAction → Bool
  | PipeAction.deploy _ => true
  | PipeAction.other _ => false

/-- The payload extraction corresponding to the `instanceof` narrowing. -/
def deployActionOf : PipeAction → Option DeployAction
  | PipeAction.deploy a => some a
  | PipeAction.other _ => none

/-- `flatMap` helper from pipeline.ts
(`Array.prototype.concat([], ...xs.map(f))`). -/
def flatMap (xs : List α) (f : α → List β) : List β :=
  (xs.map f).flatten

/-- The part of a `CdkPipeline`'s state that `validate()` reads: the stages'
action lists in pipeline order, and the keys of the `_outputArtifacts`
record (distinct, in insertion order). -/
structure CdkPipelineModel where
  stages : List (List PipeAction)
  outputArtifactKeys : List String

/-- The `stackActions` getter:
`flatMap(this._pipeline.stages, s => s.actions.filter(isDeployAction))`. -/
def stackActions (m : CdkPipelineModel) : List DeployAction :=
  flatMap m.stages (fun s => s.filterMap deployActionOf)

/-- One warning sent to `Annotations.of(this).addWarning` by
`validateDeployOrder`; the message interpolates the dependent's stack name
and the missing dependency's artifact id. -/
structure DepWarning where
  stackName : String
  depId : String
deriving DecidableEq

/-- One error string yielded by the `validate()` pass, as structured data:
`ordering` carries the two stack names interpolated into the
"deployed before it in the pipeline" message, `missingOutputStack` the
artifact id interpolated into the "Trying to use outputs" message. -/
inductive ValidationError where
  | ordering (stackName : String) (depName : String)
  | missingOutputStack (artifactId : String)
deriving DecidableEq

/-- Body of the inner loop of `validateDeployOrder` for one dependency edge:
find the dependency among all stack actions; if absent, warn; otherwise
require `depAction.executeRunOrder < stackAction.prepareRunOrder` and yield
an ordering error when the strict inequality fails.  The result pairs the
warnings channel with the errors channel. -/
def checkDep (actions : List DeployAction) (stackAction : DeployAction)
    (depId : String) : List DepWarning × List ValidationError :=
  match actions.find? (fun s => s.stackArtifactId == depId) with
  | none =>
      ([{ stackName := stackAction.stackName, depId := depId }], [])
  | some depAction =>
      if depAction.executeRunOrder < stackAction.prepareRunOrder then
        ([], [])
      else
        ([], [ValidationError.ordering stackAction.stackName depAction.stackName])

/-- The warnings produced by `validateDeployOrder` (the
`Annotations.addWarning` channel), in loop order. -/
def validateDeployOrderWarnings (m : CdkPipelineModel) : List DepWarning :=
  flatMap (stackActions m) (fun sa =>
    flatMap sa.dependencyStackArtifactIds (fun depId =>
      (checkDep (stackActions m) sa depId).1))

/-- The errors yielded by the `validateDeployOrder` generator, in loop
order. -/
def validateDeployOrderErrors (m : CdkPipelineModel) : List ValidationError :=
  flatMap (stackActions m) (fun sa =>
    flatMap sa.dependencyStackArtifactIds (fun depId =>
      (checkDep (stackActions m) sa depId).2))

/-- `validateRequestedOutputs`: for every key of `_outputArtifacts` that is
not the artifact id of any deployed stack, yield one error. -/
def validateRequestedOutputs (m : CdkPipelineModel) : List ValidationError :=
  flatMap m.outputArtifactKeys (fun artifactId =>
    if ((stackActions m).map (fun s => s.stackArtifactId)).contains artifactId then
      []
    else
      [ValidationError.missingOutputStack artifactId])

/-- `validate()`: concatenation of the two generators' yielded errors
(warnings travel on the separate `Annotations` channel and are not part of
the returned list). -/
def validate (m : CdkPipelineModel) : List ValidationError :=
  validateDeployOrderErrors m ++ validateRequestedOutputs m

/-! ### Constructor preconditions (`CdkPipeline.constructor`, lines 97-125) -/

/-- The four `throw new Error(...)` cases of the constructor's precondition
checks. -/
inductive CtorError where
  | nameWithPipeline
  | sourceWithoutSynth
  | missingSource
  | missingSynth
deriving DecidableEq

/-- Constructor inputs as pipeline.ts reads them: whether a `sourceAction` /
`synthAction` was supplied, the stage count of a caller-supplied
`codePipeline` (if any), and whether a (non-empty) `pipelineName` was
supplied. -/
structure CdkPipelineProps where
  sourceAction : Bool
  synthAction : Bool
  codePipeline : Option Nat
  pipelineName : Bool
deriving DecidableEq

/-- `!props.codePipeline || props.codePipeline.stages.length < k`. -/
def fewerStagesThan (cp : Option Nat) (k : Nat) : Bool :=
  match cp with
  | none => true
  | some n => decide (n < k)

/-- The constructor's precondition checks in source order, followed by the
stage creations; every `throw` in the source happens before any `addStage`
call, so `Except.error` means no stage of the plan was created.  On success
the created stage names are returned in creation order (`Source` and `Build`
only when the corresponding action was supplied, then `UpdatePipeline`, then
the `Assets` stage created by the `AssetPublishing` construct). -/
def cdkPipelineConstruct (p : CdkPipelineProps) : Except CtorError (List String) :=
  if p.codePipeline.isSome && p.pipelineName then
    Except.error CtorError.nameWithPipeline
  else if p.sourceAction && !p.synthAction then
    Except.error CtorError.sourceWithoutSynth
  else if !p.sourceAction && fewerStagesThan p.codePipeline 1 then
    Except.error CtorError.missingSource
  else if !p.synthAction && fewerStagesThan p.codePipeline 2 then
    Except.error CtorError.missingSynth
  else
    Except.ok ((if p.sourceAction then ["Source"] else []) ++
               (if p.synthAction then ["Build"] else []) ++
               ["UpdatePipeline", "Assets"])

/-! ### `stackOutput` (lines 227-237)

JavaScript object allocation is modelled with a monotone counter `nextRef`:
every `new` expression consumes one fresh number, so reference identity of
two objects is equality of their allocated numbers. -/

/-- The part of `CdkPipeline`'s state that `stackOutput` touches: the
`_outputArtifacts` record (artifact id → identity of the memoized
`Artifact` object, in insertion order) plus the allocation counter. -/
structure PipelineState where
  outputArtifacts : List (String × Nat)
  nextRef : Nat
deriving DecidableEq

/-- Record lookup `this._outputArtifacts[artifactId]`. -/
def lookupArtifact : List (String × Nat) → String → Option Nat
  | [], _ => none
  | p :: rest, k => if p.1 == k then some p.2 else lookupArtifact rest k

/-- The `StackOutput` object returned by `stackOutput`: `ref` is the identity
of the freshly constructed `StackOutput` wrapper, `artifactRef` the identity
of the memoized `Artifact` whose path `outputs.json` it wraps, and
`outputName` the `CfnOutput`'s logical id. -/
structure StackOutputHandle where
  ref : Nat
  artifactRef : Nat
  fileName : String
  outputName : String
deriving DecidableEq

/-- `stackOutput(cfnOutput)`: get-or-create the `Artifact` memoized under the
stack's artifact id (a `new Artifact` allocation on first request), then
return a `new StackOutput` wrapping that artifact's `outputs.json` path and
the output's logical id.  Both `new` expressions allocate. -/
def stackOutput (st : PipelineState) (artifactId logicalId : String) :
    PipelineState × StackOutputHandle :=
  match lookupArtifact st.outputArtifacts artifactId with
  | some r =>
      ({ st with nextRef := st.nextRef + 1 },
        { ref := st.nextRef, artifactRef := r,
          fileName := "outputs.json", outputName := logicalId })
  | none =>
      ({ outputArtifacts := st.outputArtifacts ++ [(artifactId, st.nextRef)],
          nextRef := st.nextRef + 2 },
        { ref := st.nextRef + 1, artifactRef := st.nextRef,
          fileName := "outputs.json", outputName := logicalId })

/-- Well-formedness of the output registry: distinct keys (JavaScript record),
distinct artifact identities, and all identities already allocated. -/
def PipelineState.WF (st : PipelineState) : Prop :=
  (st.outputArtifacts.map Prod.fst).Nodup ∧
  (st.outputArtifacts.map Prod.snd).Nodup ∧
  ∀ p ∈ st.outputArtifacts, p.2 < st.nextRef

/-! ### `AssetPublishing` (lines 298-461)

File-system paths are modelled as component lists of normalized absolute
paths (the source applies `path.resolve` to the assembly root, and asset
manifest paths come from the assembly, so neither contains `..` segments).
`path.relative(root, p)` strips the common prefix and prepends one `..`
segment per remaining root component; `relativePath.startsWith('..' + sep)`
holds at component level exactly when the first component is `..` and a
separator follows, i.e. at least one further component exists. -/

/-- `AssetType` from the actions module: `FILE` or `DOCKER_IMAGE` (the
spec's CONTAINER_IMAGE). -/
inductive AssetType where
  | FILE
  | DOCKER_IMAGE
deriving DecidableEq

/-- `AssetPublishingCommand` as read by `addPublishAssetAction`:
`assetManifestPath` (the source location), `assetId`, `assetType` and
`assetSelector`. -/
structure AssetPublishingCommand where
  assetManifestPath : List String
  assetId : String
  assetType : AssetType
  assetSelector : String
deriving DecidableEq

/-- Length of the common prefix of two component lists. -/
def commonLen : List String → List String → Nat
  | x :: xs, y :: ys => if x == y then commonLen xs ys + 1 else 0
  | _, _ => 0

/-- `path.relative(root, p)` for normalized absolute component lists: one
`..` per root component past the common prefix, then the rest of `p`. -/
def pathRelative (root p : List String) : List String :=
  List.replicate (root.length - commonLen root p) ".." ++ p.drop (commonLen root p)

/-- `relativePath.startsWith('..' + path.sep)` at component level: the first
component is `..` and at least one more component follows (the bare
relative path `..` does NOT start with `../`). -/
def startsWithDotDotSep : List String → Bool
  | d :: _ :: _ => d == ".."
  | _ => false

/-- Modelled from the spec: "Validate `req.sourceLocation` is contained
within the expected root" — the spec-side containment notion used to compare
against the source's `startsWith` check: `p` is under `root` iff `root` is a
prefix of `p`'s components. -/
def underRoot : List String → List String → Bool
  | [], _ => true
  | _ :: _, [] => false
  | r :: rs, x :: xs => r == x && underRoot rs xs

/-- A `PublishAssetsAction`: construct id, `actionName` (equal to the id by
construction at line 365), asset type, and the accumulated publish commands
(relative manifest path, asset selector) in insertion order. -/
structure PublishAssetsAction where
  id : String
  actionName : String
  assetType : AssetType
  publishCommands : List (List String × String)
deriving DecidableEq

/-- A pipeline stage: `ref` models the stage object's reference identity
(`indexOf` in `removeAssetsStageIfEmpty` compares by object identity),
`name` its stageName, `actions` the ids of its actions in `addAction`
order. -/
structure Stage where
  ref : Nat
  name : String
  actions : List String
deriving DecidableEq

/-- State of the `AssetPublishing` construct plus the pipeline's `_stages`
array it manipulates: the asset-assembly root, the `publishers` record
(asset id → action, insertion order), the `assetRoles` record (kinds that
have a role) with a log of actual `new iam.Role` constructions, the two
naming counters, the identity of the Assets stage, and the stage list. -/
structure AssetPublishing where
  myCxAsmRoot : List String
  publishers : List (String × PublishAssetsAction)
  assetRoles : List AssetType
  roleCreations : List AssetType
  fileAssetCtr : Nat
  dockerAssetCtr : Nat
  assetStageRef : Nat
  stages : List Stage
deriving DecidableEq

/-- The `throw new Error(...)` of lines 342-344: the asset manifest cannot
be outside the Cloud Assembly directory. -/
inductive PublishError where
  | outsideAsmRoot (assetManifestPath myCxAsmRoot : List String)
deriving DecidableEq

/-- The `AssetPublishing` constructor: empty registries, both counters at 1,
and the `Assets` stage appended to the pipeline's stages immediately
("We MUST add the Stage immediately here"). `stageRef` is the fresh
identity of the created stage object. -/
def AssetPublishing.init (root : List String) (priorStages : List Stage)
    (stageRef : Nat) : AssetPublishing :=
  { myCxAsmRoot := root, publishers := [], assetRoles := [], roleCreations := [],
    fileAssetCtr := 1, dockerAssetCtr := 1, assetStageRef := stageRef,
    stages := priorStages ++ [{ ref := stageRef, name := "Assets", actions := [] }] }

/-- Record lookup `this.publishers[assetId]`. -/
def lookupPub : List (String × PublishAssetsAction) → String → Option PublishAssetsAction
  | [], _ => none
  | p :: rest, k => if p.1 == k then some p.2 else lookupPub rest k

/-- `generateAssetRole` (lines 399-459): return the memoized role if present,
otherwise construct one `iam.Role` for the kind (recorded in
`roleCreations`) and memoize it.  The role's policy contents are external
resource glue and not modelled. -/
def generateAssetRole (st : AssetPublishing) (assetType : AssetType) : AssetPublishing :=
  if st.assetRoles.contains assetType then st
  else
    { st with assetRoles := st.assetRoles ++ [assetType],
              roleCreations := st.roleCreations ++ [assetType] }

/-- Lines 346-349: `if (!this.assetRoles[command.assetType]) {
this.generateAssetRole(command.assetType); }`. -/
def ensureAssetRole (st : AssetPublishing) (assetType : AssetType) : AssetPublishing :=
  if st.assetRoles.contains assetType then st else generateAssetRole st assetType

/-- Line 359: `` command.assetType === AssetType.FILE ?
`FileAsset${this._fileAssetCtr++}` : `DockerAsset${this._dockerAssetCtr++}` ``
(the name uses the counter's value before the post-increment). -/
def freshPublisherId (st : AssetPublishing) : AssetType → String
  | AssetType.FILE => "FileAsset" ++ toString st.fileAssetCtr
  | AssetType.DOCKER_IMAGE => "DockerAsset" ++ toString st.dockerAssetCtr

/-- The post-increment of the counter read in `freshPublisherId`. -/
def bumpAssetCtr (st : AssetPublishing) : AssetType → AssetPublishing
  | AssetType.FILE => { st with fileAssetCtr := st.fileAssetCtr + 1 }
  | AssetType.DOCKER_IMAGE => { st with dockerAssetCtr := st.dockerAssetCtr + 1 }

/-- `stage.addAction(action)` on the stage identified by `r`: appends the
action id to that stage's action list (order preserved, per the stage/action
sink contract). -/
def addActionToStage (stages : List Stage) (r : Nat) (actionId : String) : List Stage :=
  stages.map (fun s =>
    if s.ref == r then { s with actions := s.actions ++ [actionId] } else s)

/-- Lines 352-372, `!action` branch: allocate the id from the per-kind
counter (post-incrementing it), construct the `PublishAssetsAction` with
`actionName := id`, store it in `publishers[assetId]`, and immediately add
it to the Assets stage. -/
def createPublisher (st : AssetPublishing) (assetId : String) (t : AssetType) :
    AssetPublishing :=
  { bumpAssetCtr st t with
      publishers := (bumpAssetCtr st t).publishers ++
        [(assetId,
          { id := freshPublisherId st t, actionName := freshPublisherId st t,
            assetType := t, publishCommands := [] })],
      stages := addActionToStage (bumpAssetCtr st t).stages
        (bumpAssetCtr st t).assetStageRef (freshPublisherId st t) }

/-- Lines 351-372 as a whole: `let action = this.publishers[command.assetId];
if (!action) { ...create... }`. -/
def publisherEnsured (st : AssetPublishing) (assetId : String) (t : AssetType) :
    AssetPublishing :=
  match lookupPub st.publishers assetId with
  | some _ => st
  | none => createPublisher st assetId t

/-- Line 374, `action.addPublishCommand(relativePath, command.assetSelector)`.
Modelled from the spec: `PublishAssetsAction.addPublishCommand` is defined in
`actions/publish-assets.ts` (outside the embedded file); per the spec it
appends the request's selector, keyed by destination, preserving insertion
order. -/
def addPublishCommandTo (st : AssetPublishing) (assetId : String)
    (relativePath : List String) (assetSelector : String) : AssetPublishing :=
  { st with publishers := st.publishers.map (fun p =>
      if p.1 == assetId then
        (p.1, { p.2 with
          publishCommands := p.2.publishCommands ++ [(relativePath, assetSelector)] })
      else p) }

/-- The successful body of `addPublishAssetAction`: ensure the per-kind role,
get-or-create the publisher (appending a new action to the Assets stage on
creation), then append the publish command. -/
def stepOk (st : AssetPublishing) (c : AssetPublishingCommand) : AssetPublishing :=
  addPublishCommandTo (publisherEnsured (ensureAssetRole st c.assetType) c.assetId c.assetType)
    c.assetId (pathRelative st.myCxAsmRoot c.assetManifestPath) c.assetSelector

/-- `addPublishAssetAction` (lines 335-375): compute the relative path from
the assembly root; throw if it starts with `../`; otherwise run the
role-ensure / publisher-get-or-create / command-append sequence. -/
def addPublishAssetAction (st : AssetPublishing) (command : AssetPublishingCommand) :
    Except PublishError AssetPublishing :=
  if startsWithDotDotSep (pathRelative st.myCxAsmRoot command.assetManifestPath) then
    Except.error (PublishError.outsideAsmRoot command.assetManifestPath st.myCxAsmRoot)
  else
    Except.ok (stepOk st command)

/-- A sequence of `addPublishAssetAction` calls; a throw propagates (the
construction aborts). -/
def runPublish (st : AssetPublishing) :
    List AssetPublishingCommand → Except PublishError AssetPublishing
  | [] => Except.ok st
  | c :: rest =>
      match addPublishAssetAction st c with
      | Except.error e => Except.error e
      | Except.ok st' => runPublish st' rest

/-- `stages.indexOf(this.stage)` followed by `stages.splice(ix, 1)`: remove
the first stage with the given identity, no-op when absent. -/
def eraseStageByRef : List Stage → Nat → List Stage
  | [], _ => []
  | s :: rest, r => if s.ref == r then rest else s :: eraseStageByRef rest r

/-- `removeAssetsStageIfEmpty` (lines 380-391): if no publisher was ever
created, splice the Assets stage out of the pipeline's `_stages` array. -/
def removeAssetsStageIfEmpty (st : AssetPublishing) : AssetPublishing :=
  if st.publishers.isEmpty then
    { st with stages := eraseStageByRef st.stages st.assetStageRef }
  else st

/-- Erase the stored relative paths everywhere in a publisher (keep the
selectors and their order).  Used to state that the outcome of planning is
independent of the publish requests' source locations. -/
def scrubAction (a : PublishAssetsAction) : PublishAssetsAction :=
  { a with publishCommands := a.publishCommands.map (fun e => ([], e.2)) }

/-- Erase all stored relative paths in a planning state; every other field
(ids, names, counters, roles, stages) is kept. -/
def scrub (st : AssetPublishing) : AssetPublishing :=
  { st with publishers := st.publishers.map (fun p => (p.1, scrubAction p.2)) }

/-- `stepOk` with the request's source location erased: what the successful
body does to a scrubbed state. -/
def stepErased (st : AssetPublishing) (assetId : String) (t : AssetType)
    (assetSelector : String) : AssetPublishing :=
  addPublishCommandTo (publisherEnsured (ensureAssetRole st t) assetId t)
    assetId [] assetSelector

/-! ### Concrete instances used by witnesses -/

/-- A stack with no dependencies, executing at run order 2. -/
def stackA : DeployAction :=
  { stackArtifactId := "A", stackName := "StackA",
    dependencyStackArtifactIds := [], prepareRunOrder := 1, executeRunOrder := 2 }

/-- A stack depending on `A`, preparing at run order 2 (equal to `A`'s
execute order, so the strict-inequality requirement fails). -/
def stackB : DeployAction :=
  { stackArtifactId := "B", stackName := "StackB",
    dependencyStackArtifactIds := ["A"], prepareRunOrder := 2, executeRunOrder := 3 }

/-- A stack depending on `Z`, which is deployed nowhere in the pipeline. -/
def stackC : DeployAction :=
  { stackArtifactId := "C", stackName := "StackC",
    dependencyStackArtifactIds := ["Z"], prepareRunOrder := 5, executeRunOrder := 6 }

/-- Pipeline with `A` and `B` in one stage (plus a non-deploy action). -/
def mAB : CdkPipelineModel :=
  { stages := [[PipeAction.other "Source", PipeAction.deploy stackA, PipeAction.deploy stackB]],
    outputArtifactKeys := [] }

/-- Pipeline with only `C`, whose dependency `Z` is absent. -/
def mC : CdkPipelineModel :=
  { stages := [[PipeAction.deploy stackC]], outputArtifactKeys := [] }

/-- Pipeline deploying `A` with output artifacts requested for `A` and the
undeployed `Z`. -/
def mOut : CdkPipelineModel :=
  { stages := [[PipeAction.deploy stackA]], outputArtifactKeys := ["A", "Z"] }

/-- The output registry of a freshly constructed pipeline. -/
def pstEmpty : PipelineState := { outputArtifacts := [], nextRef := 0 }

/-- A cloud-assembly root. -/
def apRoot : List String := ["home", "cdkout"]

/-- A fresh `AssetPublishing` over `apRoot` with no prior stages. -/
def apInit : AssetPublishing := AssetPublishing.init apRoot [] 0

/-- First publish request for `asset1` (destination `dest1`). -/
def cmdF1 : AssetPublishingCommand :=
  { assetManifestPath := ["home", "cdkout", "m1.json"], assetId := "asset1",
    assetType := AssetType.FILE, assetSelector := "dest1" }

/-- Second publish request for `asset1` (destination `dest2`). -/
def cmdF2 : AssetPublishingCommand :=
  { assetManifestPath := ["home", "cdkout", "m2.json"], assetId := "asset1",
    assetType := AssetType.FILE, assetSelector := "dest2" }

/-- `cmdF1` with different content behind the source location. -/
def cmdF1b : AssetPublishingCommand :=
  { assetManifestPath := ["home", "cdkout", "other1.json"], assetId := "asset1",
    assetType := AssetType.FILE, assetSelector := "dest1" }

/-- `cmdF2` with different content behind the source location. -/
def cmdF2b : AssetPublishingCommand :=
  { assetManifestPath := ["home", "cdkout", "deep", "other2.json"], assetId := "asset1",
    assetType := AssetType.FILE, assetSelector := "dest2" }

/-- A publish request whose manifest path is the parent directory of the
assembly root: outside the root, with relative path exactly `..`. -/
def cmdOutside : AssetPublishingCommand :=
  { assetManifestPath := ["home"], assetId := "asset1",
    assetType := AssetType.FILE, assetSelector := "sel" }

/-- The state reached from `apInit` after publishing `cmdF1` then `cmdF2`:
one publisher holding both destinations in call order, one FILE role, the
FILE counter advanced once, the Assets stage holding the publisher action. -/
def apTwo : AssetPublishing :=
  { myCxAsmRoot := ["home", "cdkout"],
    publishers := [("asset1",
      { id := "FileAsset1", actionName := "FileAsset1", assetType := AssetType.FILE,
        publishCommands := [(["m1.json"], "dest1"), (["m2.json"], "dest2")] })],
    assetRoles := [AssetType.FILE], roleCreations := [AssetType.FILE],
    fileAssetCtr := 2, dockerAssetCtr := 1, assetStageRef := 0,
    stages := [{ ref := 0, name := "Assets", actions := ["FileAsset1"] }] }

/-- Role bookkeeping invariant: the creation log coincides with the memo
table and holds distinct kinds (each kind constructed at most once). -/
def RolesOK (st : AssetPublishing) : Prop :=
  st.roleCreations = st.assetRoles ∧ st.assetRoles.Nodup

/-- The Assets stage is present in the stage list and holds at least as many
actions as there are publishers. -/
def StageOK (st : AssetPublishing) : Prop :=
  ∃ s ∈ st.stages, s.ref = st.assetStageRef ∧
    st.publishers.length ≤ s.actions.length

/-! ## Theorems -/

theorem mem_flatMap {xs : List α} {f : α → List β} {b : β} :
    b ∈ flatMap xs f ↔ ∃ a, a ∈ xs ∧ b ∈ f a := by
  simp [flatMap]

theorem flatMap_cons (x : α) (xs : List α) (f : α → List β) :
    flatMap (x :: xs) f = f x ++ flatMap xs f := by
  simp [flatMap]

theorem flatMap_eq_nil_of (xs : List α) (f : α → List β)
    (h : ∀ a ∈ xs, f a = []) : flatMap xs f = [] := by
  induction xs with
  | nil => rfl
  | cons x xs ih =>
      rw [flatMap_cons, h x (by simp), ih fun a ha => h a (by simp [ha])]
      rfl

/-- C1: for every deploy action `a` in the flattened action list and every
dependency id `d` of `a` whose deploy action `D` is found in the list, the
per-edge check of `validateDeployOrder` emits the ordering-violation error
naming both stacks exactly when the strict inequality
`D.executeRunOrder < a.prepareRunOrder` fails (equality included), and emits
nothing for the edge when it holds; every such error is part of the
validator's yielded error list. -/
theorem deployOrder_edge_violation_iff (m : CdkPipelineModel)
    (a D : DeployAction) (depId : String)
    (ha : a ∈ stackActions m) (hd : depId ∈ a.dependencyStackArtifactIds)
    (hD : (stackActions m).find? (fun s => s.stackArtifactId == depId) = some D) :
    checkDep (stackActions m) a depId =
      (if D.executeRunOrder < a.prepareRunOrder then ([], [])
        else ([], [ValidationError.ordering a.stackName D.stackName]))
    ∧ (¬ D.executeRunOrder < a.prepareRunOrder →
        ValidationError.ordering a.stackName D.stackName ∈ validateDeployOrderErrors m) := by
  constructor
  · simp only [checkDep, hD]
  · intro hlt
    have hc : (checkDep (stackActions m) a depId).2 =
        [ValidationError.ordering a.stackName D.stackName] := by
      simp only [checkDep, hD]
      simp [hlt]
    refine mem_flatMap.mpr ⟨a, ha, mem_flatMap.mpr ⟨depId, hd, ?_⟩⟩
    simp [hc]

/-- Witness for C1: in `mAB`, stack `B` depends on `A` with
`A.executeRunOrder = B.prepareRunOrder = 2`; equality of run orders counts
as a violation and the error naming both stacks is emitted. -/
theorem deployOrder_edge_violation_iff_witness :
    (stackB ∈ stackActions mAB ∧ "A" ∈ stackB.dependencyStackArtifactIds ∧
      (stackActions mAB).find? (fun s => s.stackArtifactId == "A") = some stackA) ∧
    (checkDep (stackActions mAB) stackB "A" =
      (if stackA.executeRunOrder < stackB.prepareRunOrder then ([], [])
        else ([], [ValidationError.ordering stackB.stackName stackA.stackName]))
    ∧ (¬ stackA.executeRunOrder < stackB.prepareRunOrder →
        ValidationError.ordering stackB.stackName stackA.stackName ∈
          validateDeployOrderErrors mAB)) :=
  ⟨⟨by decide, by decide, by decide⟩,
    deployOrder_edge_violation_iff mAB stackB stackA "A" (by decide) (by decide) (by decide)⟩

/-- C5: for a dependency edge whose target is deployed nowhere in the
pipeline, the per-edge check emits exactly one warning (on the non-fatal
`Annotations` channel) and zero errors, and that warning appears in the
validator's warning channel. -/
theorem deployOrder_missing_dep_warning (m : CdkPipelineModel)
    (a : DeployAction) (depId : String)
    (ha : a ∈ stackActions m) (hd : depId ∈ a.dependencyStackArtifactIds)
    (hnone : (stackActions m).find? (fun s => s.stackArtifactId == depId) = none) :
    checkDep (stackActions m) a depId =
      ([{ stackName := a.stackName, depId := depId }], [])
    ∧ ({ stackName := a.stackName, depId := depId : DepWarning } ∈
        validateDeployOrderWarnings m) := by
  have hc : checkDep (stackActions m) a depId =
      ([{ stackName := a.stackName, depId := depId }], []) := by
    simp only [checkDep, hnone]
  refine ⟨hc, mem_flatMap.mpr ⟨a, ha, mem_flatMap.mpr ⟨depId, hd, ?_⟩⟩⟩
  simp [hc]

/-- Witness for C5: in `mC`, stack `C` depends on the absent `Z`; one
warning naming `StackC` and `Z` is produced and the edge contributes no
error. -/
theorem deployOrder_missing_dep_warning_witness :
    (stackC ∈ stackActions mC ∧ "Z" ∈ stackC.dependencyStackArtifactIds ∧
      (stackActions mC).find? (fun s => s.stackArtifactId == "Z") = none) ∧
    (checkDep (stackActions mC) stackC "Z" =
      ([{ stackName := stackC.stackName, depId := "Z" }], [])
    ∧ ({ stackName := stackC.stackName, depId := "Z" : DepWarning } ∈
        validateDeployOrderWarnings mC)) :=
  ⟨⟨by decide, by decide, by decide⟩,
    deployOrder_missing_dep_warning mC stackC "Z" (by decide) (by decide) (by decide)⟩

theorem deployOrderErrors_are_ordering (m : CdkPipelineModel) :
    ∀ e ∈ validateDeployOrderErrors m, ∃ s d, e = ValidationError.ordering s d := by
  intro e he
  obtain ⟨sa, _, he⟩ := mem_flatMap.mp he
  obtain ⟨depId, _, he⟩ := mem_flatMap.mp he
  rcases hfind : (stackActions m).find? (fun s => s.stackArtifactId == depId) with _ | dep
  · simp [checkDep, hfind] at he
  · by_cases hlt : dep.executeRunOrder < sa.prepareRunOrder
    · simp [checkDep, hfind, hlt] at he
    · simp [checkDep, hfind, hlt] at he
      exact ⟨_, _, he⟩

theorem countP_requested_head (ids : List String) (x k : String) (hxk : x ≠ k) :
    (if ids.contains x then ([] : List ValidationError)
      else [ValidationError.missingOutputStack x]).countP
      (fun e => decide (e = ValidationError.missingOutputStack k)) = 0 := by
  by_cases hc : ids.contains x
  · simp only [hc]
    rfl
  · simp only [Bool.not_eq_true] at hc
    simp only [hc]
    simp [hxk]

theorem countP_requested_zero (ids : List String) (k : String) :
    ∀ keys : List String, k ∉ keys →
      (flatMap keys (fun a =>
        if ids.contains a then [] else [ValidationError.missingOutputStack a])).countP
        (fun e => decide (e = ValidationError.missingOutputStack k)) = 0 := by
  intro keys
  induction keys with
  | nil => intro _; rfl
  | cons x xs ih =>
      intro hk
      rw [flatMap_cons, List.countP_append, ih (fun h => hk (by simp [h])),
        countP_requested_head ids x k (fun h => hk (by simp [h]))]

theorem countP_requested_one (ids : List String) (k : String) :
    ∀ keys : List String, keys.Nodup → k ∈ keys → ids.contains k = false →
      (flatMap keys (fun a =>
        if ids.contains a then [] else [ValidationError.missingOutputStack a])).countP
        (fun e => decide (e = ValidationError.missingOutputStack k)) = 1 := by
  intro keys
  induction keys with
  | nil => intro _ hk _; cases hk
  | cons x xs ih =>
      intro hnd hk hidk
      rw [flatMap_cons, List.countP_append]
      have hnd1 : x ∉ xs := (List.nodup_cons.mp hnd).1
      have hnd2 : xs.Nodup := (List.nodup_cons.mp hnd).2
      rcases List.mem_cons.mp hk with hxk | hmem
      · subst hxk
        rw [countP_requested_zero ids k xs hnd1]
        have hkm : k ∉ ids := by simpa using hidk
        simp [hkm]
      · have hxk : x ≠ k := fun h => hnd1 (h ▸ hmem)
        rw [ih hnd2 hmem hidk, countP_requested_head ids x k hxk]

/-- C10: `validate()` also checks requested outputs: assuming the
`_outputArtifacts` record keys are distinct (JavaScript object keys), each
requested artifact id that no deploy action in the pipeline deploys
contributes exactly one error naming that id to `validate`'s result, and if
every requested id is deployed the output check contributes no errors. -/
theorem validate_requested_outputs_check (m : CdkPipelineModel)
    (hK : m.outputArtifactKeys.Nodup) :
    (∀ k, k ∈ m.outputArtifactKeys →
        k ∉ (stackActions m).map (fun s => s.stackArtifactId) →
        (validate m).countP
          (fun e => decide (e = ValidationError.missingOutputStack k)) = 1)
    ∧ ((∀ k ∈ m.outputArtifactKeys,
          k ∈ (stackActions m).map (fun s => s.stackArtifactId)) →
        validateRequestedOutputs m = []) := by
  constructor
  · intro k hk hnd
    rw [validate, List.countP_append]
    have h0 : (validateDeployOrderErrors m).countP
        (fun e => decide (e = ValidationError.missingOutputStack k)) = 0 := by
      rw [List.countP_eq_zero]
      intro e he
      obtain ⟨s, d, rfl⟩ := deployOrderErrors_are_ordering m e he
      simp
    rw [h0, Nat.zero_add]
    have hcon : ((stackActions m).map (fun s => s.stackArtifactId)).contains k = false := by
      by_contra h
      simp only [Bool.not_eq_false] at h
      exact hnd (by simpa using h)
    exact countP_requested_one _ k m.outputArtifactKeys hK hk hcon
  · intro hall
    apply flatMap_eq_nil_of
    intro a ha
    have hcon : ((stackActions m).map (fun s => s.stackArtifactId)).contains a = true := by
      simpa using hall a ha
    simp only [hcon]
    rfl

/-- Witness for C10: in `mOut`, outputs were requested for the deployed `A`
and the undeployed `Z`; `validate` contains exactly one error naming `Z`. -/
theorem validate_requested_outputs_check_witness :
    mOut.outputArtifactKeys.Nodup ∧
    ((∀ k, k ∈ mOut.outputArtifactKeys →
        k ∉ (stackActions mOut).map (fun s => s.stackArtifactId) →
        (validate mOut).countP
          (fun e => decide (e = ValidationError.missingOutputStack k)) = 1)
    ∧ ((∀ k ∈ mOut.outputArtifactKeys,
          k ∈ (stackActions mOut).map (fun s => s.stackArtifactId)) →
        validateRequestedOutputs mOut = [])) :=
  ⟨by decide, validate_requested_outputs_check mOut (by decide)⟩

/-- C9: `cdkPipelineConstruct` fails (and, structurally, creates no stage:
an `Except.error` result carries no stage list) exactly when one of the
structural preconditions is violated: caller-supplied pipeline together with
a pipeline name; a source action without a synth action; no source action
and no caller-supplied pipeline with at least one stage; or no synth action
and no caller-supplied pipeline with at least two stages. -/
theorem ctor_preconditions_iff (p : CdkPipelineProps) :
    ((p.codePipeline.isSome = true ∧ p.pipelineName = true) ∨
      (p.sourceAction = true ∧ p.synthAction = false) ∨
      (p.sourceAction = false ∧
        (p.codePipeline = none ∨ ∃ n, p.codePipeline = some n ∧ n < 1)) ∨
      (p.synthAction = false ∧
        (p.codePipeline = none ∨ ∃ n, p.codePipeline = some n ∧ n < 2)))
    ↔ ∃ e, cdkPipelineConstruct p = Except.error e := by
  obtain ⟨src, syn, cp, name⟩ := p
  rcases cp with _ | n
  · cases src <;> cases syn <;> cases name <;>
      simp [cdkPipelineConstruct, fewerStagesThan]
  · cases src <;> cases syn <;> cases name <;>
      by_cases h1 : n < 1 <;> by_cases h2 : n < 2 <;>
        simp [cdkPipelineConstruct, fewerStagesThan, h1, h2] <;> omega

/-- Witness for C9: supplying a source action without a synth action and
without a pre-populated pipeline makes construction fail. -/
theorem ctor_preconditions_iff_witness :
    (((false : Bool) = true ∧ (false : Bool) = true) ∨
      ((true : Bool) = true ∧ (false : Bool) = false) ∨
      ((true : Bool) = false ∧
        ((none : Option Nat) = none ∨ ∃ n, (none : Option Nat) = some n ∧ n < 1)) ∨
      ((false : Bool) = false ∧
        ((none : Option Nat) = none ∨ ∃ n, (none : Option Nat) = some n ∧ n < 2)))
    ↔ ∃ e, cdkPipelineConstruct
        { sourceAction := true, synthAction := false,
          codePipeline := none, pipelineName := false } = Except.error e :=
  ctor_preconditions_iff
    { sourceAction := true, synthAction := false,
      codePipeline := none, pipelineName := false }

theorem lookupArtifact_mem {l : List (String × Nat)} {k : String} {r : Nat}
    (h : lookupArtifact l k = some r) : (k, r) ∈ l := by
  induction l with
  | nil => cases h
  | cons p rest ih =>
      by_cases hpk : p.1 == k
      · have hk : p.1 = k := by simpa using hpk
        have hv : p.2 = r := by simpa [lookupArtifact, hpk] using h
        have : p = (k, r) := by
          rcases p with ⟨pk, pv⟩
          simp only at hk hv
          rw [hk, hv]
        rw [this]
        exact List.mem_cons_self _ _
      · have h' : lookupArtifact rest k = some r := by
          simpa [lookupArtifact, hpk] using h
        exact List.mem_cons_of_mem _ (ih h')

theorem lookupArtifact_append_of_none {l : List (String × Nat)} {k : String}
    (h : lookupArtifact l k = none) (l' : List (String × Nat)) :
    lookupArtifact (l ++ l') k = lookupArtifact l' k := by
  induction l with
  | nil => rfl
  | cons p rest ih =>
      by_cases hpk : p.1 == k
      · simp [lookupArtifact, hpk] at h
      · have h' : lookupArtifact rest k = none := by
          simpa [lookupArtifact, hpk] using h
        simpa [lookupArtifact, hpk] using ih h'

theorem lookupArtifact_append_of_some {l : List (String × Nat)} {k : String} {r : Nat}
    (h : lookupArtifact l k = some r) (l' : List (String × Nat)) :
    lookupArtifact (l ++ l') k = some r := by
  induction l with
  | nil => cases h
  | cons p rest ih =>
      by_cases hpk : p.1 == k
      · have hv : p.2 = r := by simpa [lookupArtifact, hpk] using h
        simp [lookupArtifact, hpk, hv]
      · have h' : lookupArtifact rest k = some r := by
          simpa [lookupArtifact, hpk] using h
        simpa [lookupArtifact, hpk] using ih h'

theorem lookup_values_distinct {st : PipelineState} (hWF : st.WF)
    {a b : String} {ra rb : Nat} (hab : a ≠ b)
    (hla : lookupArtifact st.outputArtifacts a = some ra)
    (hlb : lookupArtifact st.outputArtifacts b = some rb) : ra ≠ rb := by
  intro hrr
  subst hrr
  have hma := lookupArtifact_mem hla
  have hmb := lookupArtifact_mem hlb
  have heq : ((a, ra) : String × Nat) = (b, ra) :=
    List.inj_on_of_nodup_map hWF.2.1 hma hmb rfl
  exact hab (congrArg Prod.fst heq)

/-- C6 counterexample: starting from the empty registry, calling
`stackOutput` twice for the same stack returns two `StackOutput` objects
with different allocation identities — the returned handles are fresh
wrapper objects, not reference-identical. -/
theorem stackOutput_fresh_wrapper_counterexample :
    (stackOutput (stackOutput pstEmpty "A" "Out").1 "A" "Out").2.ref ≠
      (stackOutput pstEmpty "A" "Out").2.ref := by
  decide

/-- C6 (amended): two `stackOutput` calls for the same stack return
`StackOutput` wrappers carrying the reference-identical memoized `Artifact`
(equal `artifactRef`) even though the wrappers themselves are freshly
allocated each call (distinct `ref`); calls for two distinct stacks carry
distinct artifacts; and the `_outputArtifacts` registry only grows. -/
theorem stackOutput_memoizes (st : PipelineState) (hWF : st.WF)
    (aid aid2 lid lid2 lid3 : String) :
    ((stackOutput (stackOutput st aid lid).1 aid lid2).2.artifactRef
        = (stackOutput st aid lid).2.artifactRef)
    ∧ ((stackOutput (stackOutput st aid lid).1 aid lid2).2.ref
        ≠ (stackOutput st aid lid).2.ref)
    ∧ (aid2 ≠ aid →
        (stackOutput (stackOutput st aid lid).1 aid2 lid3).2.artifactRef
          ≠ (stackOutput st aid lid).2.artifactRef)
    ∧ (∃ rest, (stackOutput st aid lid).1.outputArtifacts
        = st.outputArtifacts ++ rest) := by
  rcases hfind : lookupArtifact st.outputArtifacts aid with _ | r
  · have h1 : stackOutput st aid lid =
        ({ outputArtifacts := st.outputArtifacts ++ [(aid, st.nextRef)],
            nextRef := st.nextRef + 2 },
          { ref := st.nextRef + 1, artifactRef := st.nextRef,
            fileName := "outputs.json", outputName := lid }) := by
      simp [stackOutput, hfind]
    have hlk : lookupArtifact (st.outputArtifacts ++ [(aid, st.nextRef)]) aid
        = some st.nextRef := by
      rw [lookupArtifact_append_of_none hfind]
      simp [lookupArtifact]
    refine ⟨?_, ?_, ?_, ?_⟩
    · rw [h1]
      simp [stackOutput, hlk]
    · rw [h1]
      simp only [stackOutput, hlk]
      simp
    · intro hne
      rw [h1]
      rcases hfind2 : lookupArtifact st.outputArtifacts aid2 with _ | r2
      · have hlk2 : lookupArtifact (st.outputArtifacts ++ [(aid, st.nextRef)]) aid2
            = none := by
          rw [lookupArtifact_append_of_none hfind2]
          simp [lookupArtifact, Ne.symm hne]
        simp only [stackOutput, hlk2]
        simp
      · have hr2 : r2 < st.nextRef := hWF.2.2 _ (lookupArtifact_mem hfind2)
        have hlk2 : lookupArtifact (st.outputArtifacts ++ [(aid, st.nextRef)]) aid2
            = some r2 := lookupArtifact_append_of_some hfind2 _
        simp only [stackOutput, hlk2]
        simp
        omega
    · rw [h1]
      exact ⟨[(aid, st.nextRef)], rfl⟩
  · have h1 : stackOutput st aid lid =
        ({ st with nextRef := st.nextRef + 1 },
          { ref := st.nextRef, artifactRef := r,
            fileName := "outputs.json", outputName := lid }) := by
      simp [stackOutput, hfind]
    refine ⟨?_, ?_, ?_, ?_⟩
    · rw [h1]
      simp [stackOutput, hfind]
    · rw [h1]
      simp [stackOutput, hfind]
    · intro hne
      rw [h1]
      rcases hfind2 : lookupArtifact st.outputArtifacts aid2 with _ | r2
      · have hr : r < st.nextRef := hWF.2.2 _ (lookupArtifact_mem hfind)
        simp only [stackOutput, hfind2]
        simp
        omega
      · have hd : r2 ≠ r := lookup_values_distinct hWF hne hfind2 hfind
        simp only [stackOutput, hfind2]
        simpa using hd
    · rw [h1]
      exact ⟨[], by simp⟩

/-- Witness for C6's amended theorem at the empty registry, stacks `A` and
`B`. -/
theorem stackOutput_memoizes_witness :
    pstEmpty.WF ∧
    (((stackOutput (stackOutput pstEmpty "A" "Out1").1 "A" "Out2").2.artifactRef
        = (stackOutput pstEmpty "A" "Out1").2.artifactRef)
    ∧ ((stackOutput (stackOutput pstEmpty "A" "Out1").1 "A" "Out2").2.ref
        ≠ (stackOutput pstEmpty "A" "Out1").2.ref)
    ∧ ("B" ≠ "A" →
        (stackOutput (stackOutput pstEmpty "A" "Out1").1 "B" "Out3").2.artifactRef
          ≠ (stackOutput pstEmpty "A" "Out1").2.artifactRef)
    ∧ (∃ rest, (stackOutput pstEmpty "A" "Out1").1.outputArtifacts
        = pstEmpty.outputArtifacts ++ rest)) :=
  ⟨by simp [pstEmpty, PipelineState.WF],
    stackOutput_memoizes pstEmpty (by simp [pstEmpty, PipelineState.WF])
      "A" "B" "Out1" "Out2" "Out3"⟩

/-! ### Supporting lemmas for the `AssetPublishing` state machine -/

theorem ensureAssetRole_eq (st : AssetPublishing) (t : AssetType) :
    ensureAssetRole st t =
      if st.assetRoles.contains t then st
      else { st with assetRoles := st.assetRoles ++ [t],
                     roleCreations := st.roleCreations ++ [t] } := by
  by_cases h : st.assetRoles.contains t
  · rw [ensureAssetRole, if_pos h, if_pos h]
  · rw [ensureAssetRole, if_neg h, if_neg h, generateAssetRole, if_neg h]

theorem ensureAssetRole_publishers (st : AssetPublishing) (t : AssetType) :
    (ensureAssetRole st t).publishers = st.publishers := by
  rw [ensureAssetRole_eq]; split <;> rfl

theorem ensureAssetRole_stages (st : AssetPublishing) (t : AssetType) :
    (ensureAssetRole st t).stages = st.stages := by
  rw [ensureAssetRole_eq]; split <;> rfl

theorem ensureAssetRole_root (st : AssetPublishing) (t : AssetType) :
    (ensureAssetRole st t).myCxAsmRoot = st.myCxAsmRoot := by
  rw [ensureAssetRole_eq]; split <;> rfl

theorem ensureAssetRole_stageRef (st : AssetPublishing) (t : AssetType) :
    (ensureAssetRole st t).assetStageRef = st.assetStageRef := by
  rw [ensureAssetRole_eq]; split <;> rfl

theorem ensureAssetRole_fileCtr (st : AssetPublishing) (t : AssetType) :
    (ensureAssetRole st t).fileAssetCtr = st.fileAssetCtr := by
  rw [ensureAssetRole_eq]; split <;> rfl

theorem ensureAssetRole_dockerCtr (st : AssetPublishing) (t : AssetType) :
    (ensureAssetRole st t).dockerAssetCtr = st.dockerAssetCtr := by
  rw [ensureAssetRole_eq]; split <;> rfl

theorem bumpAssetCtr_publishers (st : AssetPublishing) (t : AssetType) :
    (bumpAssetCtr st t).publishers = st.publishers := by cases t <;> rfl

theorem bumpAssetCtr_stages (st : AssetPublishing) (t : AssetType) :
    (bumpAssetCtr st t).stages = st.stages := by cases t <;> rfl

theorem bumpAssetCtr_root (st : AssetPublishing) (t : AssetType) :
    (bumpAssetCtr st t).myCxAsmRoot = st.myCxAsmRoot := by cases t <;> rfl

theorem bumpAssetCtr_stageRef (st : AssetPublishing) (t : AssetType) :
    (bumpAssetCtr st t).assetStageRef = st.assetStageRef := by cases t <;> rfl

theorem bumpAssetCtr_roles (st : AssetPublishing) (t : AssetType) :
    (bumpAssetCtr st t).assetRoles = st.assetRoles ∧
    (bumpAssetCtr st t).roleCreations = st.roleCreations := by cases t <;> exact ⟨rfl, rfl⟩

theorem createPublisher_publishers (st : AssetPublishing) (aid : String) (t : AssetType) :
    (createPublisher st aid t).publishers = st.publishers ++
      [(aid, { id := freshPublisherId st t, actionName := freshPublisherId st t,
               assetType := t, publishCommands := [] })] := by
  cases t <;> rfl

theorem createPublisher_stages (st : AssetPublishing) (aid : String) (t : AssetType) :
    (createPublisher st aid t).stages =
      addActionToStage st.stages st.assetStageRef (freshPublisherId st t) := by
  cases t <;> rfl

theorem createPublisher_root (st : AssetPublishing) (aid : String) (t : AssetType) :
    (createPublisher st aid t).myCxAsmRoot = st.myCxAsmRoot := by cases t <;> rfl

theorem createPublisher_stageRef (st : AssetPublishing) (aid : String) (t : AssetType) :
    (createPublisher st aid t).assetStageRef = st.assetStageRef := by cases t <;> rfl

theorem createPublisher_roles (st : AssetPublishing) (aid : String) (t : AssetType) :
    (createPublisher st aid t).assetRoles = st.assetRoles ∧
    (createPublisher st aid t).roleCreations = st.roleCreations := by
  cases t <;> exact ⟨rfl, rfl⟩

theorem createPublisher_fileCtr (st : AssetPublishing) (aid : String) (t : AssetType) :
    (createPublisher st aid t).fileAssetCtr = (bumpAssetCtr st t).fileAssetCtr := by
  cases t <;> rfl

theorem createPublisher_dockerCtr (st : AssetPublishing) (aid : String) (t : AssetType) :
    (createPublisher st aid t).dockerAssetCtr = (bumpAssetCtr st t).dockerAssetCtr := by
  cases t <;> rfl

theorem bumpAssetCtr_file (st : AssetPublishing) :
    (bumpAssetCtr st AssetType.FILE).fileAssetCtr = st.fileAssetCtr + 1 := rfl

theorem bumpAssetCtr_docker (st : AssetPublishing) :
    (bumpAssetCtr st AssetType.DOCKER_IMAGE).dockerAssetCtr = st.dockerAssetCtr + 1 := rfl

theorem publisherEnsured_found (st : AssetPublishing) (aid : String) (t : AssetType)
    {act : PublishAssetsAction} (h : lookupPub st.publishers aid = some act) :
    publisherEnsured st aid t = st := by
  simp [publisherEnsured, h]

theorem publisherEnsured_fresh (st : AssetPublishing) (aid : String) (t : AssetType)
    (h : lookupPub st.publishers aid = none) :
    publisherEnsured st aid t = createPublisher st aid t := by
  simp [publisherEnsured, h]

theorem lookupPub_update_self (aid : String) (rel : List String) (sel : String) :
    ∀ pubs : List (String × PublishAssetsAction),
      lookupPub (pubs.map (fun p =>
        if p.1 == aid then
          (p.1, { p.2 with publishCommands := p.2.publishCommands ++ [(rel, sel)] })
        else p)) aid
      = (lookupPub pubs aid).map
          (fun a => { a with publishCommands := a.publishCommands ++ [(rel, sel)] }) := by
  intro pubs
  induction pubs with
  | nil => rfl
  | cons p rest ih =>
      by_cases h : p.1 == aid
      · simp [lookupPub, h]
      · simpa [lookupPub, h] using ih

theorem countPub_update (aid aid2 : String) (rel : List String) (sel : String) :
    ∀ pubs : List (String × PublishAssetsAction),
      (pubs.map (fun p =>
        if p.1 == aid then
          (p.1, { p.2 with publishCommands := p.2.publishCommands ++ [(rel, sel)] })
        else p)).countP (fun p => decide (p.1 = aid2))
      = pubs.countP (fun p => decide (p.1 = aid2)) := by
  intro pubs
  induction pubs with
  | nil => rfl
  | cons p rest ih =>
      have hfst : ((if (p.1 == aid) = true then
          (p.1, { p.2 with publishCommands := p.2.publishCommands ++ [(rel, sel)] })
        else p) : String × PublishAssetsAction).1 = p.1 := by
        split <;> rfl
      simp only [List.map_cons, List.countP_cons, ih, hfst]

theorem countPub_zero_of_not_found (aid : String) :
    ∀ pubs : List (String × PublishAssetsAction),
      lookupPub pubs aid = none →
      pubs.countP (fun p => decide (p.1 = aid)) = 0 := by
  intro pubs
  induction pubs with
  | nil => intro _; rfl
  | cons p rest ih =>
      intro h
      by_cases hp : p.1 == aid
      · simp [lookupPub, hp] at h
      · have h' : lookupPub rest aid = none := by simpa [lookupPub, hp] using h
        have hne : p.1 ≠ aid := by simpa using hp
        simp [List.countP_cons, hne, ih h']

theorem lookupPub_append_of_none {aid : String}
    {pubs : List (String × PublishAssetsAction)}
    (h : lookupPub pubs aid = none) (l' : List (String × PublishAssetsAction)) :
    lookupPub (pubs ++ l') aid = lookupPub l' aid := by
  induction pubs with
  | nil => rfl
  | cons p rest ih =>
      by_cases hp : p.1 == aid
      · simp [lookupPub, hp] at h
      · have h' : lookupPub rest aid = none := by simpa [lookupPub, hp] using h
        simpa [lookupPub, hp] using ih h'

theorem addPublishCommandTo_publishers (st : AssetPublishing) (aid : String)
    (rel : List String) (sel : String) :
    (addPublishCommandTo st aid rel sel).publishers
      = st.publishers.map (fun p =>
          if p.1 == aid then
            (p.1, { p.2 with publishCommands := p.2.publishCommands ++ [(rel, sel)] })
          else p) := rfl

theorem addPublishCommandTo_stages (st : AssetPublishing) (aid : String)
    (rel : List String) (sel : String) :
    (addPublishCommandTo st aid rel sel).stages = st.stages := rfl

theorem addPublishCommandTo_root (st : AssetPublishing) (aid : String)
    (rel : List String) (sel : String) :
    (addPublishCommandTo st aid rel sel).myCxAsmRoot = st.myCxAsmRoot := rfl

theorem addPublishCommandTo_stageRef (st : AssetPublishing) (aid : String)
    (rel : List String) (sel : String) :
    (addPublishCommandTo st aid rel sel).assetStageRef = st.assetStageRef := rfl

theorem addPublishCommandTo_fileCtr (st : AssetPublishing) (aid : String)
    (rel : List String) (sel : String) :
    (addPublishCommandTo st aid rel sel).fileAssetCtr = st.fileAssetCtr := rfl

theorem addPublishCommandTo_dockerCtr (st : AssetPublishing) (aid : String)
    (rel : List String) (sel : String) :
    (addPublishCommandTo st aid rel sel).dockerAssetCtr = st.dockerAssetCtr := rfl

theorem addPublishCommandTo_roles (st : AssetPublishing) (aid : String)
    (rel : List String) (sel : String) :
    (addPublishCommandTo st aid rel sel).assetRoles = st.assetRoles ∧
    (addPublishCommandTo st aid rel sel).roleCreations = st.roleCreations := ⟨rfl, rfl⟩

/-- The key composite fact about a successful call that finds an existing
publisher for the asset id: the publisher just gains one publish command;
key multiplicities, the stage list, the root and the Assets-stage identity
are untouched. -/
theorem stepOk_found (st : AssetPublishing) (c : AssetPublishingCommand)
    {act : PublishAssetsAction}
    (hfound : lookupPub st.publishers c.assetId = some act) :
    lookupPub (stepOk st c).publishers c.assetId
      = some { act with publishCommands := act.publishCommands ++
          [(pathRelative st.myCxAsmRoot c.assetManifestPath, c.assetSelector)] }
    ∧ (∀ aid2, (stepOk st c).publishers.countP (fun p => decide (p.1 = aid2))
        = st.publishers.countP (fun p => decide (p.1 = aid2)))
    ∧ (stepOk st c).stages = st.stages
    ∧ (stepOk st c).myCxAsmRoot = st.myCxAsmRoot
    ∧ (stepOk st c).assetStageRef = st.assetStageRef
    ∧ (stepOk st c).fileAssetCtr = st.fileAssetCtr
    ∧ (stepOk st c).dockerAssetCtr = st.dockerAssetCtr := by
  have hl1 : lookupPub (ensureAssetRole st c.assetType).publishers c.assetId = some act := by
    rw [ensureAssetRole_publishers]; exact hfound
  have hstep : stepOk st c =
      addPublishCommandTo (ensureAssetRole st c.assetType) c.assetId
        (pathRelative st.myCxAsmRoot c.assetManifestPath) c.assetSelector := by
    rw [stepOk, publisherEnsured_found _ _ _ hl1]
  rw [hstep]
  refine ⟨?_, ?_, ?_, ?_, ?_, ?_, ?_⟩
  · rw [addPublishCommandTo_publishers, lookupPub_update_self, hl1]
    rfl
  · intro aid2
    rw [addPublishCommandTo_publishers, countPub_update, ensureAssetRole_publishers]
  · rw [addPublishCommandTo_stages, ensureAssetRole_stages]
  · rw [addPublishCommandTo_root, ensureAssetRole_root]
  · rw [addPublishCommandTo_stageRef, ensureAssetRole_stageRef]
  · rw [addPublishCommandTo_fileCtr, ensureAssetRole_fileCtr]
  · rw [addPublishCommandTo_dockerCtr, ensureAssetRole_dockerCtr]

/-- The key composite fact about a successful call for a fresh asset id: a
new publisher is created, named from the per-kind counter, holding exactly
the one publish command; its key's multiplicity goes from the old count to
old count + 1; its id is appended to the Assets stage immediately. -/
theorem stepOk_fresh (st : AssetPublishing) (c : AssetPublishingCommand)
    (hfresh : lookupPub st.publishers c.assetId = none) :
    lookupPub (stepOk st c).publishers c.assetId
      = some { id := freshPublisherId st c.assetType,
               actionName := freshPublisherId st c.assetType,
               assetType := c.assetType,
               publishCommands :=
                 [(pathRelative st.myCxAsmRoot c.assetManifestPath, c.assetSelector)] }
    ∧ (stepOk st c).publishers.countP (fun p => decide (p.1 = c.assetId))
        = st.publishers.countP (fun p => decide (p.1 = c.assetId)) + 1
    ∧ (stepOk st c).stages =
        addActionToStage st.stages st.assetStageRef (freshPublisherId st c.assetType)
    ∧ (stepOk st c).myCxAsmRoot = st.myCxAsmRoot
    ∧ (stepOk st c).assetStageRef = st.assetStageRef
    ∧ (c.assetType = AssetType.FILE →
        (stepOk st c).fileAssetCtr = st.fileAssetCtr + 1)
    ∧ (c.assetType = AssetType.DOCKER_IMAGE →
        (stepOk st c).dockerAssetCtr = st.dockerAssetCtr + 1) := by
  have hl1 : lookupPub (ensureAssetRole st c.assetType).publishers c.assetId = none := by
    rw [ensureAssetRole_publishers]; exact hfresh
  have hid : freshPublisherId (ensureAssetRole st c.assetType) c.assetType
      = freshPublisherId st c.assetType := by
    cases c.assetType <;>
      simp [freshPublisherId, ensureAssetRole_fileCtr, ensureAssetRole_dockerCtr]
  have hstep : stepOk st c =
      addPublishCommandTo (createPublisher (ensureAssetRole st c.assetType) c.assetId c.assetType)
        c.assetId (pathRelative st.myCxAsmRoot c.assetManifestPath) c.assetSelector := by
    rw [stepOk, publisherEnsured_fresh _ _ _ hl1]
  have hpub2 : (createPublisher (ensureAssetRole st c.assetType) c.assetId c.assetType).publishers
      = st.publishers ++
        [(c.assetId, { id := freshPublisherId st c.assetType,
                       actionName := freshPublisherId st c.assetType,
                       assetType := c.assetType, publishCommands := [] })] := by
    rw [createPublisher_publishers, ensureAssetRole_publishers, hid]
  rw [hstep]
  refine ⟨?_, ?_, ?_, ?_, ?_, ?_, ?_⟩
  · rw [addPublishCommandTo_publishers, lookupPub_update_self, hpub2,
      lookupPub_append_of_none hfresh]
    simp [lookupPub]
  · rw [addPublishCommandTo_publishers, countPub_update, hpub2, List.countP_append]
    simp
  · rw [addPublishCommandTo_stages, createPublisher_stages, ensureAssetRole_stages,
      ensureAssetRole_stageRef, hid]
  · rw [addPublishCommandTo_root, createPublisher_root, ensureAssetRole_root]
  · rw [addPublishCommandTo_stageRef, createPublisher_stageRef, ensureAssetRole_stageRef]
  · intro hT
    rw [hT, addPublishCommandTo_fileCtr, createPublisher_fileCtr, bumpAssetCtr_file,
      ensureAssetRole_fileCtr]
  · intro hT
    rw [hT, addPublishCommandTo_dockerCtr, createPublisher_dockerCtr, bumpAssetCtr_docker,
      ensureAssetRole_dockerCtr]

/-- C7 (code behavior at the failing input): the manifest path `/home` is
the parent directory of the assembly root `/home/cdkout`, hence NOT
contained under the root; `path.relative` yields exactly `..`, which
`startsWith('..' + path.sep)` misses, so `addPublishAssetAction` returns
normally and registers a role and a publisher instead of throwing. -/
theorem publish_outside_root_not_caught :
    underRoot apInit.myCxAsmRoot cmdOutside.assetManifestPath = false
    ∧ pathRelative apInit.myCxAsmRoot cmdOutside.assetManifestPath = [".."]
    ∧ addPublishAssetAction apInit cmdOutside = Except.ok (stepOk apInit cmdOutside)
    ∧ lookupPub (stepOk apInit cmdOutside).publishers "asset1" ≠ none
    ∧ (stepOk apInit cmdOutside).roleCreations = [AssetType.FILE] :=
  ⟨by decide, by decide, rfl, by decide, by decide⟩

theorem publisherEnsured_roles (st : AssetPublishing) (aid : String) (t : AssetType) :
    (publisherEnsured st aid t).assetRoles = st.assetRoles
    ∧ (publisherEnsured st aid t).roleCreations = st.roleCreations := by
  rcases h : lookupPub st.publishers aid with _ | a
  · rw [publisherEnsured_fresh st aid t h]
    exact createPublisher_roles st aid t
  · rw [publisherEnsured_found st aid t h]
    exact ⟨rfl, rfl⟩

theorem stepOk_roles (st : AssetPublishing) (c : AssetPublishingCommand) :
    (stepOk st c).assetRoles = (ensureAssetRole st c.assetType).assetRoles
    ∧ (stepOk st c).roleCreations = (ensureAssetRole st c.assetType).roleCreations := by
  rw [stepOk]
  exact ⟨((addPublishCommandTo_roles _ _ _ _).1).trans (publisherEnsured_roles _ _ _).1,
         ((addPublishCommandTo_roles _ _ _ _).2).trans (publisherEnsured_roles _ _ _).2⟩

theorem ensure_roles_mem (st : AssetPublishing) (t x : AssetType) :
    x ∈ (ensureAssetRole st t).assetRoles ↔ (x ∈ st.assetRoles ∨ x = t) := by
  rw [ensureAssetRole_eq]
  by_cases h : st.assetRoles.contains t
  · rw [if_pos h]
    have ht : t ∈ st.assetRoles := by simpa using h
    constructor
    · exact Or.inl
    · rintro (hx | rfl)
      · exact hx
      · exact ht
  · rw [if_neg h]
    simp

theorem ensure_RolesOK (st : AssetPublishing) (t : AssetType) (h : RolesOK st) :
    RolesOK (ensureAssetRole st t) := by
  rcases h with ⟨hcre, hnd⟩
  rw [RolesOK, ensureAssetRole_eq]
  by_cases hc : st.assetRoles.contains t
  · rw [if_pos hc]
    exact ⟨hcre, hnd⟩
  · rw [if_neg hc]
    refine ⟨by rw [hcre], ?_⟩
    have ht : t ∉ st.assetRoles := by simpa using hc
    simp [List.nodup_append, hnd, ht]

theorem stepOk_RolesOK (st : AssetPublishing) (c : AssetPublishingCommand)
    (h : RolesOK st) : RolesOK (stepOk st c) := by
  have hr := stepOk_roles st c
  have he := ensure_RolesOK st c.assetType h
  constructor
  · rw [hr.2, hr.1]
    exact he.1
  · rw [hr.1]
    exact he.2

theorem stepOk_roles_mem (st : AssetPublishing) (c : AssetPublishingCommand)
    (x : AssetType) :
    x ∈ (stepOk st c).assetRoles ↔ (x ∈ st.assetRoles ∨ x = c.assetType) := by
  rw [(stepOk_roles st c).1]
  exact ensure_roles_mem st c.assetType x

theorem addPublish_ok_elim {st st' : AssetPublishing} {c : AssetPublishingCommand}
    (h : addPublishAssetAction st c = Except.ok st') : st' = stepOk st c := by
  by_cases hesc : startsWithDotDotSep (pathRelative st.myCxAsmRoot c.assetManifestPath) = true
  · rw [addPublishAssetAction, if_pos hesc] at h
    exact Except.noConfusion h
  · rw [addPublishAssetAction, if_neg hesc] at h
    exact (Except.ok.inj h).symm

theorem runPublish_roles :
    ∀ (cmds : List AssetPublishingCommand) (st st' : AssetPublishing),
      runPublish st cmds = Except.ok st' → RolesOK st →
      RolesOK st' ∧
        (∀ x, x ∈ st'.assetRoles ↔
          (x ∈ st.assetRoles ∨ x ∈ cmds.map (fun c => c.assetType))) := by
  intro cmds
  induction cmds with
  | nil =>
      intro st st' h hok
      rw [runPublish] at h
      injection h with h
      subst h
      exact ⟨hok, fun x => by simp⟩
  | cons c rest ih =>
      intro st st' h hok
      rw [runPublish] at h
      cases hstep : addPublishAssetAction st c with
      | error e =>
          rw [hstep] at h
          exact Except.noConfusion h
      | ok st1 =>
          rw [hstep] at h
          have h' : runPublish st1 rest = Except.ok st' := h
          have h1 := addPublish_ok_elim hstep
          subst h1
          obtain ⟨hok', hmem⟩ := ih (stepOk st c) st' h' (stepOk_RolesOK st c hok)
          refine ⟨hok', fun x => ?_⟩
          rw [hmem x, stepOk_roles_mem]
          simp [List.mem_cons, or_assoc]

theorem countP_eq_self_le_one {α : Type} [DecidableEq α] {l : List α}
    (h : l.Nodup) (t : α) : l.countP (fun x => decide (x = t)) ≤ 1 := by
  induction l with
  | nil => simp
  | cons x xs ih =>
      rw [List.countP_cons]
      rcases List.nodup_cons.mp h with ⟨hx, hxs⟩
      by_cases hxt : x = t
      · subst hxt
        have hz : xs.countP (fun y => decide (y = x)) = 0 := by
          rw [List.countP_eq_zero]
          intro a ha
          simp only [decide_eq_true_eq]
          rintro rfl
          exact hx ha
        rw [hz]
        simp
      · have hd : (decide (x = t)) = false := by simp [hxt]
        rw [hd]
        simpa using ih hxs

/-- C8: across any successful sequence of publish requests starting from a
fresh `AssetPublishing`, each asset kind's role is constructed at most once
(the creation log holds each kind at most once and coincides with the memo
table), and a kind has a role exactly when some request of that kind was
made — lazy creation, memoized reuse, role count O(kinds). -/
theorem asset_roles_once (root : List String) (prior : List Stage) (r : Nat)
    (cmds : List AssetPublishingCommand) (st' : AssetPublishing)
    (h : runPublish (AssetPublishing.init root prior r) cmds = Except.ok st') :
    (∀ t, st'.roleCreations.countP (fun x => decide (x = t)) ≤ 1)
    ∧ (∀ t, t ∈ st'.assetRoles ↔ t ∈ cmds.map (fun c => c.assetType))
    ∧ st'.roleCreations = st'.assetRoles := by
  have hinit : RolesOK (AssetPublishing.init root prior r) := ⟨rfl, List.nodup_nil⟩
  obtain ⟨⟨hcre, hnd⟩, hmem⟩ := runPublish_roles cmds _ st' h hinit
  refine ⟨fun t => ?_, fun t => ?_, hcre⟩
  · rw [hcre]
    exact countP_eq_self_le_one hnd t
  · rw [hmem t]
    simp [AssetPublishing.init]

/-- Witness for C8: publishing `asset1` twice from a fresh construct yields
exactly one FILE role creation and roles only for the FILE kind. -/
theorem asset_roles_once_witness :
    runPublish apInit [cmdF1, cmdF2] = Except.ok apTwo ∧
    ((∀ t, apTwo.roleCreations.countP (fun x => decide (x = t)) ≤ 1)
    ∧ (∀ t, t ∈ apTwo.assetRoles ↔ t ∈ [cmdF1, cmdF2].map (fun c => c.assetType))
    ∧ apTwo.roleCreations = apTwo.assetRoles) :=
  ⟨rfl, asset_roles_once apRoot [] 0 [cmdF1, cmdF2] apTwo rfl⟩

theorem stepOk_root (st : AssetPublishing) (c : AssetPublishingCommand) :
    (stepOk st c).myCxAsmRoot = st.myCxAsmRoot := by
  rw [stepOk, addPublishCommandTo_root]
  rcases h : lookupPub (ensureAssetRole st c.assetType).publishers c.assetId with _ | a
  · rw [publisherEnsured_fresh _ _ _ h, createPublisher_root, ensureAssetRole_root]
  · rw [publisherEnsured_found _ _ _ h, ensureAssetRole_root]

theorem stepOk_stageRef (st : AssetPublishing) (c : AssetPublishingCommand) :
    (stepOk st c).assetStageRef = st.assetStageRef := by
  rw [stepOk, addPublishCommandTo_stageRef]
  rcases h : lookupPub (ensureAssetRole st c.assetType).publishers c.assetId with _ | a
  · rw [publisherEnsured_fresh _ _ _ h, createPublisher_stageRef, ensureAssetRole_stageRef]
  · rw [publisherEnsured_found _ _ _ h, ensureAssetRole_stageRef]

theorem stepOk_len_found (st : AssetPublishing) (c : AssetPublishingCommand)
    (hfound : ∃ act, lookupPub st.publishers c.assetId = some act) :
    (stepOk st c).publishers.length = st.publishers.length := by
  obtain ⟨act, h⟩ := hfound
  have hl1 : lookupPub (ensureAssetRole st c.assetType).publishers c.assetId = some act := by
    rw [ensureAssetRole_publishers]
    exact h
  rw [stepOk, publisherEnsured_found _ _ _ hl1, addPublishCommandTo_publishers,
    List.length_map, ensureAssetRole_publishers]

theorem stepOk_len_fresh (st : AssetPublishing) (c : AssetPublishingCommand)
    (hfresh : lookupPub st.publishers c.assetId = none) :
    (stepOk st c).publishers.length = st.publishers.length + 1 := by
  have hl1 : lookupPub (ensureAssetRole st c.assetType).publishers c.assetId = none := by
    rw [ensureAssetRole_publishers]
    exact hfresh
  rw [stepOk, publisherEnsured_fresh _ _ _ hl1, addPublishCommandTo_publishers,
    List.length_map, createPublisher_publishers, List.length_append,
    ensureAssetRole_publishers]
  rfl

theorem stepOk_len_ge (st : AssetPublishing) (c : AssetPublishingCommand) :
    st.publishers.length ≤ (stepOk st c).publishers.length := by
  rcases h : lookupPub st.publishers c.assetId with _ | act
  · rw [stepOk_len_fresh st c h]
    omega
  · rw [stepOk_len_found st c ⟨act, h⟩]

theorem runPublish_len_ge :
    ∀ (cmds : List AssetPublishingCommand) (st st' : AssetPublishing),
      runPublish st cmds = Except.ok st' →
      st.publishers.length ≤ st'.publishers.length := by
  intro cmds
  induction cmds with
  | nil =>
      intro st st' h
      rw [runPublish] at h
      injection h with h
      subst h
      exact Nat.le_refl _
  | cons c rest ih =>
      intro st st' h
      rw [runPublish] at h
      cases hstep : addPublishAssetAction st c with
      | error e =>
          rw [hstep] at h
          exact Except.noConfusion h
      | ok st1 =>
          rw [hstep] at h
          have h' : runPublish st1 rest = Except.ok st' := h
          have h1 := addPublish_ok_elim hstep
          subst h1
          exact Nat.le_trans (stepOk_len_ge st c) (ih _ _ h')

theorem runPublish_refs :
    ∀ (cmds : List AssetPublishingCommand) (st st' : AssetPublishing),
      runPublish st cmds = Except.ok st' →
      st'.assetStageRef = st.assetStageRef ∧ st'.myCxAsmRoot = st.myCxAsmRoot := by
  intro cmds
  induction cmds with
  | nil =>
      intro st st' h
      rw [runPublish] at h
      injection h with h
      subst h
      exact ⟨rfl, rfl⟩
  | cons c rest ih =>
      intro st st' h
      rw [runPublish] at h
      cases hstep : addPublishAssetAction st c with
      | error e =>
          rw [hstep] at h
          exact Except.noConfusion h
      | ok st1 =>
          rw [hstep] at h
          have h' : runPublish st1 rest = Except.ok st' := h
          have h1 := addPublish_ok_elim hstep
          subst h1
          obtain ⟨hr, hm⟩ := ih _ _ h'
          exact ⟨hr.trans (stepOk_stageRef st c), hm.trans (stepOk_root st c)⟩

theorem addActionToStage_mem (stages : List Stage) (r : Nat) (aid : String)
    (s : Stage) (hs : s ∈ stages) (href : s.ref = r) :
    { s with actions := s.actions ++ [aid] } ∈ addActionToStage stages r aid := by
  have hf : (if s.ref == r then { s with actions := s.actions ++ [aid] } else s)
      = { s with actions := s.actions ++ [aid] } :=
    if_pos (by simpa using href)
  rw [addActionToStage]
  exact List.mem_map.mpr ⟨s, hs, hf⟩

theorem stepOk_StageOK (st : AssetPublishing) (c : AssetPublishingCommand)
    (h : StageOK st) : StageOK (stepOk st c) := by
  obtain ⟨s, hs, href, hlen⟩ := h
  rcases hlk : lookupPub st.publishers c.assetId with _ | act
  · obtain ⟨_, _, hstg, _, href2, _, _⟩ := stepOk_fresh st c hlk
    refine ⟨{ s with actions := s.actions ++ [freshPublisherId st c.assetType] }, ?_, ?_, ?_⟩
    · rw [hstg]
      exact addActionToStage_mem st.stages st.assetStageRef _ s hs href
    · rw [href2]
      exact href
    · rw [stepOk_len_fresh st c hlk]
      simpa using Nat.add_le_add_right hlen 1
  · obtain ⟨_, _, hstg, _, href2, _, _⟩ := stepOk_found st c hlk
    refine ⟨s, ?_, ?_, ?_⟩
    · rw [hstg]
      exact hs
    · rw [href2]
      exact href
    · rw [stepOk_len_found st c ⟨act, hlk⟩]
      exact hlen

theorem runPublish_StageOK :
    ∀ (cmds : List AssetPublishingCommand) (st st' : AssetPublishing),
      runPublish st cmds = Except.ok st' → StageOK st → StageOK st' := by
  intro cmds
  induction cmds with
  | nil =>
      intro st st' h hok
      rw [runPublish] at h
      injection h with h
      subst h
      exact hok
  | cons c rest ih =>
      intro st st' h hok
      rw [runPublish] at h
      cases hstep : addPublishAssetAction st c with
      | error e =>
          rw [hstep] at h
          exact Except.noConfusion h
      | ok st1 =>
          rw [hstep] at h
          have h' : runPublish st1 rest = Except.ok st' := h
          have h1 := addPublish_ok_elim hstep
          subst h1
          exact ih _ _ h' (stepOk_StageOK st c hok)

theorem eraseStageByRef_append (prior : List Stage) (r : Nat) (s0 : Stage)
    (hr : ∀ s ∈ prior, s.ref ≠ r) (hs0 : s0.ref = r) :
    eraseStageByRef (prior ++ [s0]) r = prior := by
  induction prior with
  | nil =>
      rw [List.nil_append, eraseStageByRef, if_pos (by simpa using hs0)]
  | cons s rest ih =>
      have hne : ¬(s.ref == r) = true := by
        simpa using hr s (by simp)
      rw [List.cons_append, eraseStageByRef, if_neg hne,
        ih (fun x hx => hr x (by simp [hx]))]

/-- C4: `removeAssetsStageIfEmpty` removes the Assets stage exactly when no
`PublishingAction` was created: with zero publish requests the finalized
stage list is the prior stage list (the Assets stage is gone and, since `r`
is fresh, no asset-publishing stage remains); after at least one successful
request the finalizer leaves the state unchanged and the Assets stage is
present with at least one action. -/
theorem assets_stage_elision (root : List String) (prior : List Stage) (r : Nat)
    (hr : ∀ s ∈ prior, s.ref ≠ r) (cmds : List AssetPublishingCommand) :
    removeAssetsStageIfEmpty (AssetPublishing.init root prior r)
        = { AssetPublishing.init root prior r with stages := prior }
    ∧ (∀ st', cmds ≠ [] →
        runPublish (AssetPublishing.init root prior r) cmds = Except.ok st' →
        removeAssetsStageIfEmpty st' = st'
        ∧ ∃ s ∈ st'.stages, s.ref = r ∧ s.actions ≠ []) := by
  constructor
  · rw [removeAssetsStageIfEmpty,
      if_pos (show (AssetPublishing.init root prior r).publishers.isEmpty = true from rfl)]
    have he : eraseStageByRef (AssetPublishing.init root prior r).stages
        (AssetPublishing.init root prior r).assetStageRef = prior :=
      eraseStageByRef_append prior r _ hr rfl
    rw [he]
  · intro st' hne hrun
    have hlen : 1 ≤ st'.publishers.length := by
      rcases cmds with _ | ⟨c, rest⟩
      · exact absurd rfl hne
      · rw [runPublish] at hrun
        cases hstep : addPublishAssetAction (AssetPublishing.init root prior r) c with
        | error e =>
            rw [hstep] at hrun
            exact Except.noConfusion hrun
        | ok st1 =>
            rw [hstep] at hrun
            have h' : runPublish st1 rest = Except.ok st' := hrun
            have h1 := addPublish_ok_elim hstep
            subst h1
            refine Nat.le_trans ?_ (runPublish_len_ge rest _ _ h')
            have hfresh : lookupPub (AssetPublishing.init root prior r).publishers
                c.assetId = none := rfl
            rw [stepOk_len_fresh _ c hfresh]
            omega
    have hnonempty : ¬st'.publishers.isEmpty = true := by
      cases hp : st'.publishers with
      | nil => rw [hp] at hlen; simp at hlen
      | cons a l => simp [hp, List.isEmpty]
    have hso : StageOK st' := by
      refine runPublish_StageOK cmds _ st' hrun ?_
      exact ⟨{ ref := r, name := "Assets", actions := [] }, by simp [AssetPublishing.init],
        rfl, by simp [AssetPublishing.init]⟩
    obtain ⟨s, hs, hsref, hslen⟩ := hso
    obtain ⟨hstref, _⟩ := runPublish_refs cmds _ st' hrun
    refine ⟨by rw [removeAssetsStageIfEmpty, if_neg hnonempty], s, hs, ?_, ?_⟩
    · rw [hsref, hstref]
      rfl
    · intro hnil
      rw [hnil] at hslen
      simp only [List.length_nil, Nat.le_zero] at hslen
      omega

/-- Witness for C4 at a fresh construct with no prior stages: with zero
requests the Assets stage is removed; with one request it persists holding
the publishing action. -/
theorem assets_stage_elision_witness :
    (∀ s ∈ ([] : List Stage), s.ref ≠ 0) ∧
    (removeAssetsStageIfEmpty (AssetPublishing.init apRoot [] 0)
        = { AssetPublishing.init apRoot [] 0 with stages := [] }
    ∧ (∀ st', [cmdF1] ≠ [] →
        runPublish (AssetPublishing.init apRoot [] 0) [cmdF1] = Except.ok st' →
        removeAssetsStageIfEmpty st' = st'
        ∧ ∃ s ∈ st'.stages, s.ref = 0 ∧ s.actions ≠ [])) :=
  ⟨by simp, assets_stage_elision apRoot [] 0 (by simp) [cmdF1]⟩

theorem runPublish_append_all (aid : String) :
    ∀ (cmds : List AssetPublishingCommand) (st : AssetPublishing)
      (act : PublishAssetsAction),
      (∀ x ∈ cmds, x.assetId = aid) →
      (∀ x ∈ cmds, startsWithDotDotSep
        (pathRelative st.myCxAsmRoot x.assetManifestPath) = false) →
      lookupPub st.publishers aid = some act →
      ∃ st', runPublish st cmds = Except.ok st'
        ∧ lookupPub st'.publishers aid = some { act with publishCommands := act.publishCommands ++ cmds.map (fun x => (pathRelative st.myCxAsmRoot x.assetManifestPath, x.assetSelector)) }
        ∧ (∀ aid2, st'.publishers.countP (fun p => decide (p.1 = aid2))
            = st.publishers.countP (fun p => decide (p.1 = aid2)))
        ∧ st'.stages = st.stages
        ∧ st'.myCxAsmRoot = st.myCxAsmRoot
        ∧ st'.assetStageRef = st.assetStageRef := by
  intro cmds
  induction cmds with
  | nil =>
      intro st act _ _ hl
      refine ⟨st, rfl, ?_, fun _ => rfl, rfl, rfl, rfl⟩
      simpa using hl
  | cons c rest ih =>
      intro st act hids hoks hl
      have hcid : c.assetId = aid := hids c (by simp)
      have hesc : startsWithDotDotSep
          (pathRelative st.myCxAsmRoot c.assetManifestPath) = false := hoks c (by simp)
      have hl' : lookupPub st.publishers c.assetId = some act := by
        rw [hcid]
        exact hl
      obtain ⟨hlook, hcnt, hstg, hroot, href, _, _⟩ := stepOk_found st c hl'
      rw [hcid] at hlook
      obtain ⟨st', hrun, hlook', hcnt', hstg', hroot', href'⟩ :=
        ih (stepOk st c) _ (fun x hx => hids x (by simp [hx]))
          (fun x hx => by rw [hroot]; exact hoks x (by simp [hx])) hlook
      rw [hroot] at hlook'
      refine ⟨st', ?_, ?_, ?_, ?_, ?_, ?_⟩
      · rw [runPublish, addPublishAssetAction, if_neg (by simp [hesc])]
        exact hrun
      · rw [hlook']
        simp [List.append_assoc]
      · intro aid2
        rw [hcnt' aid2, hcnt aid2]
      · rw [hstg', hstg]
      · rw [hroot', hroot]
      · rw [href', href]

/-- C2: publishing the same asset id N = 1 + |rest| times with arbitrary
destinations from a state where the id is fresh creates exactly one
`PublishAssetsAction` on the first call — already added to the Assets stage
at creation time — and after all N calls exactly one action exists for the
id, holding the N destination entries in call order. -/
theorem requestPublish_dedup (st : AssetPublishing) (aid : String)
    (c : AssetPublishingCommand) (rest : List AssetPublishingCommand)
    (hcid : c.assetId = aid) (hrest : ∀ x ∈ rest, x.assetId = aid)
    (hfresh : lookupPub st.publishers aid = none)
    (hokc : startsWithDotDotSep (pathRelative st.myCxAsmRoot c.assetManifestPath) = false)
    (hokr : ∀ x ∈ rest, startsWithDotDotSep
      (pathRelative st.myCxAsmRoot x.assetManifestPath) = false)
    (hstg : ∃ s ∈ st.stages, s.ref = st.assetStageRef) :
    ∃ st1 act1 st2 act2,
      addPublishAssetAction st c = Except.ok st1
      ∧ st1 = stepOk st c
      ∧ lookupPub st1.publishers aid = some act1
      ∧ act1.publishCommands =
          [(pathRelative st.myCxAsmRoot c.assetManifestPath, c.assetSelector)]
      ∧ st1.publishers.countP (fun p => decide (p.1 = aid)) = 1
      ∧ (∃ s ∈ st1.stages, s.ref = st.assetStageRef ∧ act1.id ∈ s.actions)
      ∧ runPublish st (c :: rest) = Except.ok st2
      ∧ lookupPub st2.publishers aid = some act2
      ∧ act2.id = act1.id
      ∧ st2.publishers.countP (fun p => decide (p.1 = aid)) = 1
      ∧ act2.publishCommands = (c :: rest).map
          (fun x => (pathRelative st.myCxAsmRoot x.assetManifestPath, x.assetSelector))
      ∧ (∃ s ∈ st2.stages, s.ref = st.assetStageRef ∧ act2.id ∈ s.actions) := by
  have hfreshc : lookupPub st.publishers c.assetId = none := by
    rw [hcid]
    exact hfresh
  obtain ⟨hlook, hcnt, hstg1, hroot1, href1, _, _⟩ := stepOk_fresh st c hfreshc
  rw [hcid] at hlook hcnt
  have hcnt1 : (stepOk st c).publishers.countP (fun p => decide (p.1 = aid)) = 1 := by
    rw [hcnt, countPub_zero_of_not_found aid st.publishers hfresh]
  obtain ⟨s, hs, hsref⟩ := hstg
  have hstage1 : ∃ s1 ∈ (stepOk st c).stages, s1.ref = st.assetStageRef ∧
      freshPublisherId st c.assetType ∈ s1.actions := by
    refine ⟨{ s with actions := s.actions ++ [freshPublisherId st c.assetType] }, ?_, hsref, ?_⟩
    · rw [hstg1]
      exact addActionToStage_mem st.stages st.assetStageRef _ s hs hsref
    · simp
  obtain ⟨st2, hrun2, hlook2, hcnt2, hstg2, hroot2, href2⟩ :=
    runPublish_append_all aid rest (stepOk st c) _ hrest
      (fun x hx => by rw [hroot1]; exact hokr x hx) hlook
  rw [hroot1] at hlook2
  refine ⟨stepOk st c,
    { id := freshPublisherId st c.assetType,
      actionName := freshPublisherId st c.assetType,
      assetType := c.assetType,
      publishCommands :=
        [(pathRelative st.myCxAsmRoot c.assetManifestPath, c.assetSelector)] },
    st2,
    { id := freshPublisherId st c.assetType,
      actionName := freshPublisherId st c.assetType,
      assetType := c.assetType,
      publishCommands :=
        (c :: rest).map
          (fun x => (pathRelative st.myCxAsmRoot x.assetManifestPath, x.assetSelector)) },
    ?_, rfl, hlook, rfl, hcnt1, hstage1, ?_, ?_, rfl, ?_, rfl, ?_⟩
  · rw [addPublishAssetAction, if_neg (by simp [hokc])]
  · rw [runPublish, addPublishAssetAction, if_neg (by simp [hokc])]
    exact hrun2
  · rw [hlook2]
    simp
  · rw [hcnt2 aid]
    exact hcnt1
  · obtain ⟨s2, hs2, hs2ref, hs2mem⟩ := hstage1
    rw [hstg2]
    exact ⟨s2, hs2, hs2ref, hs2mem⟩

/-- Witness for C2: two requests for `asset1` with destinations `dest1`,
`dest2` from a fresh construct. -/
theorem requestPublish_dedup_witness :
    (cmdF1.assetId = "asset1" ∧ (∀ x ∈ [cmdF2], x.assetId = "asset1")
      ∧ lookupPub apInit.publishers "asset1" = none
      ∧ startsWithDotDotSep (pathRelative apInit.myCxAsmRoot cmdF1.assetManifestPath) = false
      ∧ (∀ x ∈ [cmdF2], startsWithDotDotSep
          (pathRelative apInit.myCxAsmRoot x.assetManifestPath) = false)
      ∧ (∃ s ∈ apInit.stages, s.ref = apInit.assetStageRef)) ∧
    (∃ st1 act1 st2 act2,
      addPublishAssetAction apInit cmdF1 = Except.ok st1
      ∧ st1 = stepOk apInit cmdF1
      ∧ lookupPub st1.publishers "asset1" = some act1
      ∧ act1.publishCommands =
          [(pathRelative apInit.myCxAsmRoot cmdF1.assetManifestPath, cmdF1.assetSelector)]
      ∧ st1.publishers.countP (fun p => decide (p.1 = "asset1")) = 1
      ∧ (∃ s ∈ st1.stages, s.ref = apInit.assetStageRef ∧ act1.id ∈ s.actions)
      ∧ runPublish apInit (cmdF1 :: [cmdF2]) = Except.ok st2
      ∧ lookupPub st2.publishers "asset1" = some act2
      ∧ act2.id = act1.id
      ∧ st2.publishers.countP (fun p => decide (p.1 = "asset1")) = 1
      ∧ act2.publishCommands = (cmdF1 :: [cmdF2]).map
          (fun x => (pathRelative apInit.myCxAsmRoot x.assetManifestPath, x.assetSelector))
      ∧ (∃ s ∈ st2.stages, s.ref = apInit.assetStageRef ∧ act2.id ∈ s.actions)) :=
  ⟨⟨rfl, by decide, rfl, by decide, by decide, by decide⟩,
    requestPublish_dedup apInit "asset1" cmdF1 [cmdF2] rfl (by decide) rfl
      (by decide) (by decide) (by decide)⟩

theorem scrub_root (st : AssetPublishing) : (scrub st).myCxAsmRoot = st.myCxAsmRoot := rfl

theorem scrub_publishers (st : AssetPublishing) :
    (scrub st).publishers = st.publishers.map (fun p => (p.1, scrubAction p.2)) := rfl

theorem lookupPub_scrub (aid : String) :
    ∀ pubs : List (String × PublishAssetsAction),
      lookupPub (pubs.map (fun p => (p.1, scrubAction p.2))) aid
        = (lookupPub pubs aid).map scrubAction := by
  intro pubs
  induction pubs with
  | nil => rfl
  | cons p rest ih =>
      by_cases h : p.1 == aid
      · simp [lookupPub, h]
      · simpa [lookupPub, h] using ih

theorem scrub_ensure (st : AssetPublishing) (t : AssetType) :
    scrub (ensureAssetRole st t) = ensureAssetRole (scrub st) t := by
  rw [ensureAssetRole_eq, ensureAssetRole_eq]
  by_cases h : st.assetRoles.contains t
  · rw [if_pos h, if_pos (show (scrub st).assetRoles.contains t = true from h)]
  · rw [if_neg h, if_neg (show ¬(scrub st).assetRoles.contains t = true from h)]
    rfl

theorem scrub_createPublisher (st : AssetPublishing) (aid : String) (t : AssetType) :
    scrub (createPublisher st aid t) = createPublisher (scrub st) aid t := by
  cases t <;>
    simp [createPublisher, bumpAssetCtr, scrub, scrubAction, freshPublisherId,
      addActionToStage]

theorem scrub_map_update (aid : String) (rel : List String) (sel : String) :
    ∀ pubs : List (String × PublishAssetsAction),
      ((pubs.map (fun p => if p.1 == aid then (p.1, { p.2 with publishCommands := p.2.publishCommands ++ [(rel, sel)] }) else p)).map (fun p => (p.1, scrubAction p.2)))
      = ((pubs.map (fun p => (p.1, scrubAction p.2))).map (fun p => if p.1 == aid then (p.1, { p.2 with publishCommands := p.2.publishCommands ++ [(([] : List String), sel)] }) else p)) := by
  intro pubs
  induction pubs with
  | nil => rfl
  | cons p rest ih =>
      by_cases h : p.1 == aid
      · simp only [List.map_cons, ih]
        simp [h, scrubAction]
      · simp only [List.map_cons, ih]
        simp [h]

theorem scrub_addCmd (st : AssetPublishing) (aid : String) (rel : List String) (sel : String) :
    scrub (addPublishCommandTo st aid rel sel)
      = addPublishCommandTo (scrub st) aid [] sel := by
  rcases st with ⟨root, pubs, roles, creations, fc, dc, r, stages⟩
  simp only [scrub, addPublishCommandTo]
  rw [scrub_map_update]

theorem scrub_publisherEnsured (st : AssetPublishing) (aid : String) (t : AssetType) :
    scrub (publisherEnsured st aid t) = publisherEnsured (scrub st) aid t := by
  rcases h : lookupPub st.publishers aid with _ | a
  · have h2 : lookupPub (scrub st).publishers aid = none := by
      rw [scrub_publishers, lookupPub_scrub, h]
      rfl
    rw [publisherEnsured_fresh _ _ _ h, publisherEnsured_fresh _ _ _ h2,
      scrub_createPublisher]
  · have h2 : lookupPub (scrub st).publishers aid = some (scrubAction a) := by
      rw [scrub_publishers, lookupPub_scrub, h]
      rfl
    rw [publisherEnsured_found _ _ _ h, publisherEnsured_found _ _ _ h2]

theorem scrub_stepOk (st : AssetPublishing) (c : AssetPublishingCommand) :
    scrub (stepOk st c) = stepErased (scrub st) c.assetId c.assetType c.assetSelector := by
  rw [stepOk, stepErased, scrub_addCmd, scrub_publisherEnsured, scrub_ensure]

theorem stepOk_scrub_congr (st₁ st₂ : AssetPublishing)
    (c₁ c₂ : AssetPublishingCommand) (hs : scrub st₁ = scrub st₂)
    (hid : c₁.assetId = c₂.assetId) (ht : c₁.assetType = c₂.assetType)
    (hsel : c₁.assetSelector = c₂.assetSelector) :
    scrub (stepOk st₁ c₁) = scrub (stepOk st₂ c₂) := by
  rw [scrub_stepOk, scrub_stepOk, hs, hid, ht, hsel]

theorem runPublish_scrub_congr :
    ∀ (cmds₁ cmds₂ : List AssetPublishingCommand) (st₁ st₂ : AssetPublishing),
      scrub st₁ = scrub st₂ →
      cmds₁.length = cmds₂.length →
      (∀ p ∈ cmds₁.zip cmds₂, p.1.assetId = p.2.assetId
        ∧ p.1.assetType = p.2.assetType ∧ p.1.assetSelector = p.2.assetSelector) →
      (∀ x ∈ cmds₁, startsWithDotDotSep
        (pathRelative st₁.myCxAsmRoot x.assetManifestPath) = false) →
      (∀ x ∈ cmds₂, startsWithDotDotSep
        (pathRelative st₂.myCxAsmRoot x.assetManifestPath) = false) →
      Except.map scrub (runPublish st₁ cmds₁) = Except.map scrub (runPublish st₂ cmds₂) := by
  intro cmds₁
  induction cmds₁ with
  | nil =>
      intro cmds₂ st₁ st₂ hs hlen _ _ _
      cases cmds₂ with
      | nil => simp [runPublish, Except.map, hs]
      | cons c l => simp at hlen
  | cons c₁ r₁ ih =>
      intro cmds₂ st₁ st₂ hs hlen hsame hok1 hok2
      cases cmds₂ with
      | nil => simp at hlen
      | cons c₂ r₂ =>
          have hesc1 : startsWithDotDotSep
              (pathRelative st₁.myCxAsmRoot c₁.assetManifestPath) = false :=
            hok1 c₁ (by simp)
          have hesc2 : startsWithDotDotSep
              (pathRelative st₂.myCxAsmRoot c₂.assetManifestPath) = false :=
            hok2 c₂ (by simp)
          have e1 : runPublish st₁ (c₁ :: r₁) = runPublish (stepOk st₁ c₁) r₁ := by
            rw [runPublish, addPublishAssetAction, if_neg (by simp [hesc1])]
          have e2 : runPublish st₂ (c₂ :: r₂) = runPublish (stepOk st₂ c₂) r₂ := by
            rw [runPublish, addPublishAssetAction, if_neg (by simp [hesc2])]
          rw [e1, e2]
          obtain ⟨hid, ht, hsel⟩ := hsame (c₁, c₂) (by simp)
          refine ih r₂ _ _ (stepOk_scrub_congr _ _ _ _ hs hid ht hsel)
            (by simpa using hlen) (fun p hp => hsame p (by simp [hp])) ?_ ?_
          · intro x hx
            rw [stepOk_root]
            exact hok1 x (by simp [hx])
          · intro x hx
            rw [stepOk_root]
            exact hok2 x (by simp [hx])

/-- C3: two planning runs issuing request sequences that agree on asset ids,
kinds, and selectors — differing only in the content behind the source
locations — produce scrub-identical outcomes: identical publisher
identity/name tokens, counters, roles, and stage contents.  Moreover the
token allocated for a fresh asset is the per-kind sequence number
(`FileAsset` N / `DockerAsset` M from the monotonically-increasing
counters), never derived from the asset identity or content. -/
theorem publisher_identity_stable (st : AssetPublishing)
    (cmds₁ cmds₂ : List AssetPublishingCommand)
    (hlen : cmds₁.length = cmds₂.length)
    (hsame : ∀ p ∈ cmds₁.zip cmds₂, p.1.assetId = p.2.assetId
      ∧ p.1.assetType = p.2.assetType ∧ p.1.assetSelector = p.2.assetSelector)
    (hok1 : ∀ x ∈ cmds₁, startsWithDotDotSep
      (pathRelative st.myCxAsmRoot x.assetManifestPath) = false)
    (hok2 : ∀ x ∈ cmds₂, startsWithDotDotSep
      (pathRelative st.myCxAsmRoot x.assetManifestPath) = false) :
    Except.map scrub (runPublish st cmds₁) = Except.map scrub (runPublish st cmds₂)
    ∧ (∀ (s : AssetPublishing) (c : AssetPublishingCommand),
        lookupPub s.publishers c.assetId = none →
        ∃ act, lookupPub (stepOk s c).publishers c.assetId = some act
          ∧ act.id = freshPublisherId s c.assetType
          ∧ act.actionName = freshPublisherId s c.assetType
          ∧ (c.assetType = AssetType.FILE →
              act.id = "FileAsset" ++ toString s.fileAssetCtr
              ∧ (stepOk s c).fileAssetCtr = s.fileAssetCtr + 1)
          ∧ (c.assetType = AssetType.DOCKER_IMAGE →
              act.id = "DockerAsset" ++ toString s.dockerAssetCtr
              ∧ (stepOk s c).dockerAssetCtr = s.dockerAssetCtr + 1)) := by
  constructor
  · exact runPublish_scrub_congr cmds₁ cmds₂ st st rfl hlen hsame hok1 hok2
  · intro s c hfresh
    obtain ⟨hlook, _, _, _, _, hf, hd⟩ := stepOk_fresh s c hfresh
    refine ⟨_, hlook, rfl, rfl, ?_, ?_⟩
    · intro hT
      refine ⟨?_, hf hT⟩
      rw [hT]
      rfl
    · intro hT
      refine ⟨?_, hd hT⟩
      rw [hT]
      rfl

/-- Witness for C3: the runs `[cmdF1, cmdF2]` and `[cmdF1b, cmdF2b]` differ
only in the manifest paths; their outcomes scrub to the same state. -/
theorem publisher_identity_stable_witness :
    (([cmdF1, cmdF2] : List AssetPublishingCommand).length = [cmdF1b, cmdF2b].length
      ∧ (∀ p ∈ ([cmdF1, cmdF2] : List AssetPublishingCommand).zip [cmdF1b, cmdF2b],
          p.1.assetId = p.2.assetId ∧ p.1.assetType = p.2.assetType
          ∧ p.1.assetSelector = p.2.assetSelector)
      ∧ (∀ x ∈ ([cmdF1, cmdF2] : List AssetPublishingCommand), startsWithDotDotSep
          (pathRelative apInit.myCxAsmRoot x.assetManifestPath) = false)
      ∧ (∀ x ∈ ([cmdF1b, cmdF2b] : List AssetPublishingCommand), startsWithDotDotSep
          (pathRelative apInit.myCxAsmRoot x.assetManifestPath) = false)) ∧
    (Except.map scrub (runPublish apInit [cmdF1, cmdF2])
        = Except.map scrub (runPublish apInit [cmdF1b, cmdF2b])
    ∧ (∀ (s : AssetPublishing) (c : AssetPublishingCommand),
        lookupPub s.publishers c.assetId = none →
        ∃ act, lookupPub (stepOk s c).publishers c.assetId = some act
          ∧ act.id = freshPublisherId s c.assetType
          ∧ act.actionName = freshPublisherId s c.assetType
          ∧ (c.assetType = AssetType.FILE →
              act.id = "FileAsset" ++ toString s.fileAssetCtr
              ∧ (stepOk s c).fileAssetCtr = s.fileAssetCtr + 1)
          ∧ (c.assetType = AssetType.DOCKER_IMAGE →
              act.id = "DockerAsset" ++ toString s.dockerAssetCtr
              ∧ (stepOk s c).dockerAssetCtr = s.dockerAssetCtr + 1))) :=
  ⟨⟨rfl, by decide, by decide, by decide⟩,
    publisher_identity_stable apInit [cmdF1, cmdF2] [cmdF1b, cmdF2b] rfl
      (by decide) (by decide) (by decide)⟩

end CdkPipelines
